import Mathlib

/-!
Shallow embedding of `src/jacquard.py` (Knitting Pattern Designer).

The program is an event-driven editor over a 2D array of hex color strings
(`KnittingDesigner.grid_data`), with a stroke-based undo log, a mark set,
rectangular selections and a clipboard, plus a modal color picker with a
hex input field.  Every operation relevant to the claims is translated here
as a pure state transformer on a `Designer` record; canvas/tkinter calls
(`itemconfig`, drawing) have no model state, and file I/O is modelled by an
`Option ProjectFile` argument (`none` = missing or unparseable file).
-/

namespace Jacquard

/-- Hex color strings such as `"#f5f5f5"`. -/
abbrev Color := String

/-- `grid_data`: a list of rows, each a list of cell colors. -/
abbrev Grid := List (List Color)

/-- A `(row, col)` cell coordinate. -/
abbrev Cell := Nat × Nat

/-- One undo record `(row, col, previous color)` as appended by `paint_tile`,
`cut_selection` and `paste_selection`. -/
abbrev StrokeEntry := Nat × Nat × Color

/-- The default background color used by `clear_grid`, `cut_selection` and the
initial grid (`"#f5f5f5"` in the source). -/
def default_color : Color := "#f5f5f5"

/-- `self.max_undo = 50`. -/
def max_undo : Nat := 50

/-- Read `grid_data[row][col]`.  The Python code only indexes in range (callers
go through `get_tile_at`, which bounds-checks); out of range we return `""`. -/
def gridGet (g : Grid) (r c : Nat) : Color :=
  (g.getD r []).getD c ""

/-- Write `grid_data[row][col] = v`.  `List.set` is the identity out of range,
matching the fact that the Python code never writes out of range. -/
def gridSet (g : Grid) (r c : Nat) (v : Color) : Grid :=
  g.set r ((g.getD r []).set c v)

/-- The grid is an `n × n` array, as built in `__init__`. -/
def gridShape (g : Grid) (n : Nat) : Prop :=
  g.length = n ∧ ∀ row ∈ g, row.length = n

instance (g : Grid) (n : Nat) : Decidable (gridShape g n) := by
  unfold gridShape; infer_instance

/-- The state of `KnittingDesigner` (the fields the claims are about).
`selected_color_index` is kept as a `Nat`: the paint path only runs with a
valid palette index (mark mode, where the source stores `-1`, never paints). -/
structure Designer where
  grid_size : Nat
  grid_data : Grid
  colors : List Color
  selected_color_index : Nat
  is_dragging : Bool
  current_stroke : List StrokeEntry
  undo_history : List (List StrokeEntry)
  selection_start : Option Cell
  selection_end : Option Cell
  is_selecting : Bool
  clipboard : Option (List (List Color))
  mark_mode : Bool
  mark_adding : Bool
  marked_tiles : Finset Cell

/-- `self.colors[self.selected_color_index]` — the color used by `paint_tile`.
Total via `getD`; the claims only exercise in-range palette indices. -/
def paint_color (d : Designer) : Color :=
  d.colors.getD d.selected_color_index "#ffffff"

/-- `KnittingDesigner.paint_tile` (lines 789-801): no-op when the cell already
holds the selected color, otherwise record `(row, col, old_color)` into the
current stroke (when `record_undo`) and overwrite the cell. -/
def paint_tile (d : Designer) (row col : Nat) (record_undo : Bool) : Designer :=
  let color := paint_color d
  let old_color := gridGet d.grid_data row col
  if old_color = color then d
  else
    { d with
      current_stroke :=
        if record_undo then d.current_stroke ++ [(row, col, old_color)]
        else d.current_stroke,
      grid_data := gridSet d.grid_data row col color }

/-- `KnittingDesigner.toggle_mark` (lines 803-815): flip membership of the cell
in `marked_tiles` (canvas X marks carry no model state). -/
def toggle_mark (d : Designer) (pos : Cell) : Designer :=
  if pos ∈ d.marked_tiles then { d with marked_tiles := d.marked_tiles.erase pos }
  else { d with marked_tiles := insert pos d.marked_tiles }

/-- `KnittingDesigner.on_canvas_click` (lines 850-864), for an in-range
position (out-of-range events are dropped by `get_tile_at`). -/
def on_canvas_click (d : Designer) (pos : Cell) : Designer :=
  if d.mark_mode then
    toggle_mark
      { d with is_dragging := true, mark_adding := decide (pos ∉ d.marked_tiles) } pos
  else
    paint_tile { d with is_dragging := true, current_stroke := [] } pos.1 pos.2 true

/-- `KnittingDesigner.on_canvas_drag` (lines 866-882), for an in-range
position. -/
def on_canvas_drag (d : Designer) (pos : Cell) : Designer :=
  if ¬ d.is_dragging then d
  else if d.mark_mode then
    if d.mark_adding then
      if pos ∈ d.marked_tiles then d else toggle_mark d pos
    else
      if pos ∈ d.marked_tiles then toggle_mark d pos else d
  else paint_tile d pos.1 pos.2 true

/-- The append-then-cap pattern shared by `on_canvas_release`, `cut_selection`
and `paste_selection`: `undo_history.append(s)` followed by
`if len(undo_history) > max_undo: undo_history.pop(0)`. -/
def push_stroke (h : List (List StrokeEntry)) (s : List StrokeEntry) :
    List (List StrokeEntry) :=
  if (h ++ [s]).length > max_undo then (h ++ [s]).tail else h ++ [s]

/-- `KnittingDesigner.on_canvas_release` (lines 884-891). -/
def on_canvas_release (d : Designer) : Designer :=
  let d := { d with is_dragging := false }
  let d :=
    if d.current_stroke = [] then d
    else { d with undo_history := push_stroke d.undo_history d.current_stroke }
  { d with current_stroke := [] }

/-- Replay a stroke's `(row, col, old_color)` records onto a grid, in list
order — the loop body of `undo`. -/
def applyStroke (g : Grid) (s : List StrokeEntry) : Grid :=
  s.foldl (fun g e => gridSet g e.1 e.2.1 e.2.2) g

/-- `KnittingDesigner.undo` (lines 923-931): pop the most recent stroke
(`list.pop()` pops the last element) and restore every recorded color. -/
def undo (d : Designer) : Designer :=
  match d.undo_history.getLast? with
  | none => d
  | some stroke =>
    { d with
      undo_history := d.undo_history.dropLast,
      grid_data := applyStroke d.grid_data stroke }

/-- Row-major cell list `[(a+i, b+j) | i < m, j < w i]` — the shape of every
nested `for row ... for col ...` loop in the source. -/
def cellsFrom (a b m : Nat) (w : Nat → Nat) : List Cell :=
  (List.range m).flatMap (fun i => (List.range (w i)).map (fun j => (a + i, b + j)))

/-- `KnittingDesigner.clear_grid` (lines 933-939): set every cell of the
`grid_size × grid_size` grid to the default color.  Touches nothing else. -/
def clear_grid (d : Designer) : Designer :=
  { d with
    grid_data :=
      (cellsFrom 0 0 d.grid_size (fun _ => d.grid_size)).foldl
        (fun g rc => gridSet g rc.1 rc.2 default_color) d.grid_data }

/-- `KnittingDesigner.clear_selection` (lines 1024-1032). -/
def clear_selection (d : Designer) : Designer :=
  { d with selection_start := none, selection_end := none, is_selecting := false }

/-- `KnittingDesigner.on_selection_start` (lines 942-948); the argument is
`get_tile_at(event)`. -/
def on_selection_start (d : Designer) (pos : Option Cell) : Designer :=
  let d := clear_selection d
  match pos with
  | some p => { d with selection_start := some p, is_selecting := true }
  | none => d

/-- `KnittingDesigner.on_selection_end` (lines 960-969); the argument is
`get_tile_at(event)`.  Drawing the rectangle has no model state. -/
def on_selection_end (d : Designer) (pos : Option Cell) : Designer :=
  if ¬ d.is_selecting then d
  else
    let d := { d with is_selecting := false }
    match pos with
    | some p => { d with selection_end := some p }
    | none => d

/-- `KnittingDesigner._get_selection_bounds` (lines 1034-1041): normalized
`(min_row, min_col, max_row, max_col)`. -/
def get_selection_bounds (d : Designer) : Option (Nat × Nat × Nat × Nat) :=
  match d.selection_start, d.selection_end with
  | some (r1, c1), some (r2, c2) =>
    some (min r1 r2, min c1 c2, max r1 r2, max c1 c2)
  | _, _ => none

/-- `KnittingDesigner.copy_selection` (lines 1043-1057): snapshot the selected
rectangle into the clipboard. -/
def copy_selection (d : Designer) : Designer :=
  match get_selection_bounds d with
  | none => d
  | some (min_row, min_col, max_row, max_col) =>
    { d with
      clipboard :=
        some ((List.range (max_row + 1 - min_row)).map (fun i =>
          (List.range (max_col + 1 - min_col)).map (fun j =>
            gridGet d.grid_data (min_row + i) (min_col + j)))) }

/-- The shared loop body of `cut_selection` and `paste_selection`: read the
old color; if it differs from the new one, record `(row, col, old)` and
overwrite. -/
def write_step (acc : Grid × List StrokeEntry) (rc : Cell) (color : Color) :
    Grid × List StrokeEntry :=
  let old_color := gridGet acc.1 rc.1 rc.2
  if old_color = color then acc
  else (gridSet acc.1 rc.1 rc.2 color, acc.2 ++ [(rc.1, rc.2, old_color)])

/-- Guarded fold used to reason uniformly about the cut and paste loops. -/
def guardedWriteFold (guard : Cell → Prop) [DecidablePred guard]
    (acc : Grid × List StrokeEntry) (ops : List (Cell × Color)) :
    Grid × List StrokeEntry :=
  ops.foldl (fun acc p => if guard p.1 then write_step acc p.1 p.2 else acc) acc

/-- The clearing loop of `cut_selection`: sweep the selected rectangle in
row-major order, recording `(row, col, old)` and writing the default color at
each cell not already at the default. -/
def cut_result (d : Designer) (min_row min_col max_row max_col : Nat) :
    Grid × List StrokeEntry :=
  (cellsFrom min_row min_col (max_row + 1 - min_row)
      (fun _ => max_col + 1 - min_col)).foldl
    (fun acc rc => write_step acc rc default_color)
    (d.grid_data, ([] : List StrokeEntry))

/-- `KnittingDesigner.cut_selection` (lines 1059-1086): copy, then clear the
selected rectangle to the default color, recording `(row, col, old)` for each
cell not already at the default; append the record list to the undo log when
non-empty. -/
def cut_selection (d : Designer) : Designer :=
  match get_selection_bounds d with
  | none => d
  | some (min_row, min_col, max_row, max_col) =>
    let d := copy_selection d
    let res := cut_result d min_row min_col max_row max_col
    { d with
      grid_data := res.1,
      undo_history :=
        if res.2 = [] then d.undo_history else push_stroke d.undo_history res.2 }

/-- The `(target_cell, color)` pairs enumerated by the paste loops
(`for row_offset, row_data in enumerate(clipboard): for col_offset, color in
enumerate(row_data)`), read off by index. -/
def paste_targets (clip : List (List Color)) (start_row start_col : Nat) :
    List (Cell × Color) :=
  (List.range clip.length).flatMap (fun i =>
    (List.range (clip.getD i []).length).map (fun j =>
      ((start_row + i, start_col + j), (clip.getD i []).getD j "")))

/-- The paste loops: write the clipboard block anchored at
`selection_start` (or `(0,0)` without a selection), skipping out-of-bounds
targets (`0 <= target` is automatic over `Nat`: anchors and offsets are
non-negative), recording `(row, col, old)` for each cell whose color
changes. -/
def paste_result (d : Designer) (clip : List (List Color)) :
    Grid × List StrokeEntry :=
  guardedWriteFold (fun rc => rc.1 < d.grid_size ∧ rc.2 < d.grid_size)
    (d.grid_data, ([] : List StrokeEntry))
    (paste_targets clip (d.selection_start.getD (0, 0)).1
      (d.selection_start.getD (0, 0)).2)

/-- Body of `paste_selection` for a non-empty clipboard: run the paste loops,
append the record list to the undo log when non-empty, then (when a selection
exists) move `selection_end` to cover the pasted block. -/
def paste_apply (d : Designer) (clip : List (List Color)) : Designer :=
  let res := paste_result d clip
  let d' :=
    { d with
      grid_data := res.1,
      undo_history :=
        if res.2 = [] then d.undo_history
        else push_stroke d.undo_history res.2 }
  match d.selection_start with
  | none => d'
  | some p =>
    { d' with
      selection_end :=
        some (min (p.1 + clip.length - 1) (d.grid_size - 1),
              min (p.2 + (clip.headD []).length - 1) (d.grid_size - 1)) }

/-- `KnittingDesigner.paste_selection` (lines 1088-1129).  `if not
self.clipboard` is true both for `None` and for an empty list. -/
def paste_selection (d : Designer) : Designer :=
  match d.clipboard with
  | none => d
  | some clip => if clip = [] then d else paste_apply d clip

/-- One entry of a parsed `grid_data` array, as far as the copy loop of
`load_project` inspects it: `cells` is a value that `len()` measures and
indexing reads — a JSON array (a JSON string behaves identically to the
array of its 1-character strings); `bad` is a value such as a number on
which `len(loaded_grid[row])` raises `TypeError`, aborting the copy at this
row (the exception is swallowed by the surrounding `except`).  Cell values
are copied verbatim and never inspected by `load_project`, so they are kept
at the grid's cell type. -/
inductive LoadedRow where
  | cells : List Color → LoadedRow
  | bad : LoadedRow
deriving DecidableEq

/-- The cell list of a well-typed row (never read on `bad`). -/
def row_cells : LoadedRow → List Color
  | LoadedRow.cells cs => cs
  | LoadedRow.bad => []

/-- The parsed `marked_tiles` value: `tiles` is a JSON array of coordinate
pairs (`set(tuple(t) for t in ...)` succeeds); `bad` a value on which that
set comprehension raises.  The set is fully built before being assigned, so
the marks update is all-or-nothing: on `bad` the swallowed exception leaves
the marks unchanged. -/
inductive LoadedMarks where
  | tiles : List Cell → LoadedMarks
  | bad : LoadedMarks
deriving DecidableEq

/-- The parsed content of `knitting_project.json`, with each field optional
(the source checks `"grid_data" in project` etc.).  A `grid_data` value on
which `len(loaded_grid)` itself raises (e.g. a number) leaves the designer
in the same state as `some [LoadedRow.bad]` on a non-empty grid: nothing is
copied and the rest of the handler is skipped; a JSON object behaves as
`some [LoadedRow.bad]` (first integer index raises `KeyError`), an empty
one as `some []`. -/
structure ProjectFile where
  grid_data : Option (List LoadedRow)
  marked_tiles : Option LoadedMarks

/-- The row-copy loop of `load_project`: for each row index in order, read
`len(loaded_grid[row])` and copy `min(len(row), grid_size)` cells; a `bad`
row raises, so the sweep stops there and reports failure (`false`), leaving
the rows already processed copied. -/
def copyRowsFrom (lg : List LoadedRow) (n : Nat) : Grid → List Nat → Grid × Bool
  | g, [] => (g, true)
  | g, r :: rest =>
    match lg.getD r LoadedRow.bad with
    | LoadedRow.bad => (g, false)
    | LoadedRow.cells cs =>
      copyRowsFrom lg n
        ((List.range (min cs.length n)).foldl
          (fun g c => gridSet g r c (cs.getD c "")) g) rest

/-- The `marked_tiles` branch of `load_project`. -/
def apply_marks (d : Designer) (mt : Option LoadedMarks) : Designer :=
  match mt with
  | none => d
  | some LoadedMarks.bad => d
  | some (LoadedMarks.tiles tiles) => { d with marked_tiles := tiles.toFinset }

/-- `KnittingDesigner.load_project` (lines 1177-1195).  `none` models a
missing or unparseable file: the `except` swallows the error and the state
is untouched.  When the document parses and holds grid data, rows are copied
cell-by-cell, `min(len(loaded_grid), grid_size)` rows and per row
`min(len(loaded_grid[row]), grid_size)` columns; an ill-typed row aborts the
sweep mid-way, and the swallowed exception then also skips the
`marked_tiles` update (and the redraw, which has no model state). -/
def load_project (d : Designer) (file : Option ProjectFile) : Designer :=
  match file with
  | none => d
  | some project =>
    match project.grid_data with
    | none => apply_marks d project.marked_tiles
    | some loaded_grid =>
      let res := copyRowsFrom loaded_grid d.grid_size d.grid_data
        (List.range (min loaded_grid.length d.grid_size))
      let d := { d with grid_data := res.1 }
      if res.2 then apply_marks d project.marked_tiles else d

/-- The state built by `KnittingDesigner.__init__` (with `grid_size = n`;
the source uses 64, "N configurable at startup" per the spec). -/
def initialDesigner (n : Nat) : Designer where
  grid_size := n
  grid_data := List.replicate n (List.replicate n default_color)
  colors := (List.replicate 15 "#ffffff").set 0 "#3a6ea5"
  selected_color_index := 0
  is_dragging := false
  current_stroke := []
  undo_history := []
  selection_start := none
  selection_end := none
  is_selecting := false
  clipboard := none
  mark_mode := false
  mark_adding := false
  marked_tiles := ∅

/-- One complete paint stroke: pointer down on `first`, drag through `moves`,
release. -/
def runStroke (d : Designer) (first : Cell) (moves : List Cell) : Designer :=
  on_canvas_release (moves.foldl on_canvas_drag (on_canvas_click d first))

/-- A sequence of paint strokes. -/
def runStrokes (d : Designer) (strokes : List (Cell × List Cell)) : Designer :=
  strokes.foldl (fun d st => runStroke d st.1 st.2) d

/-- `k` successive `undo()` calls. -/
def undoAll : Nat → Designer → Designer
  | 0, d => d
  | n + 1, d => undoAll n (undo d)

/-- `UndoInverts g₀ hr g`: popping the strokes of the (reversed) undo history
`hr` one by one from grid `g` lands on `g₀`. -/
def UndoInverts (g₀ : Grid) : List (List StrokeEntry) → Grid → Prop
  | [], g => g = g₀
  | s :: rest, g => UndoInverts g₀ rest (applyStroke g s)

/-- Invariant holding throughout one paint-mode drag, relating the live state
`d` to the state `d₀` at pointer-down: replaying the open stroke restores the
pointer-down grid, every recorded cell currently shows the drag color, and
all fields not owned by painting are untouched. -/
structure DragInv (d₀ d : Designer) : Prop where
  mark : d.mark_mode = false
  drag : d.is_dragging = true
  colors_eq : d.colors = d₀.colors
  index_eq : d.selected_color_index = d₀.selected_color_index
  size : d.grid_size = d₀.grid_size
  shape : gridShape d.grid_data d₀.grid_size
  restore : applyStroke d.grid_data d.current_stroke = d₀.grid_data
  holds : ∀ e ∈ d.current_stroke, gridGet d.grid_data e.1 e.2.1 = paint_color d₀
  hist : d.undo_history = d₀.undo_history
  marks : d.marked_tiles = d₀.marked_tiles

/-- The undo records produced by a guarded write pass over `ops`, computed
from the starting grid: a record `(row, col, old)` for exactly the guarded
cells whose color differs from the written one. -/
def changedEntries (guard : Cell → Prop) [DecidablePred guard] (g : Grid)
    (ops : List (Cell × Color)) : List StrokeEntry :=
  ops.filterMap (fun p =>
    if guard p.1 ∧ gridGet g p.1.1 p.1.2 ≠ p.2 then
      some (p.1.1, p.1.2, gridGet g p.1.1 p.1.2)
    else none)

/-! ### Color picker hex input (`ModernColorPicker`)

The picker state is HSV floats set, on every accepted hex input, from the
integer RGB triple `int(h[0:2],16), int(h[2:4],16), int(h[4:6],16)` via the
pure function `colorsys.rgb_to_hsv`.  We model the current color by that RGB
triple: an input is "accepted" exactly when the triple is overwritten. -/

/-- A character `0-9a-fA-F`, i.e. a digit of a 6-digit hex color. -/
def isHexDigitChar (c : Char) : Bool :=
  (('0' ≤ c) && (c ≤ '9')) || (('a' ≤ c) && (c ≤ 'f')) || (('A' ≤ c) && (c ≤ 'F'))

/-- Numeric value of a hex digit. -/
def hexDigitVal (c : Char) : Nat :=
  if ('0' ≤ c) && (c ≤ '9') then c.toNat - '0'.toNat
  else if ('a' ≤ c) && (c ≤ 'f') then c.toNat - 'a'.toNat + 10
  else c.toNat - 'A'.toNat + 10

/-- Digit-sequence part of Python's `int(s, 16)` grammar: hex digits with
single underscores strictly between digits.  `prevDigit` records whether the
previous character can be followed by an underscore (true right after a digit
or a `0x` prefix); `seen` records whether a real digit has appeared. -/
def hexCore : List Char → Nat → Bool → Bool → Option Nat
  | [], acc, prevDigit, seen => if prevDigit && seen then some acc else none
  | c :: rest, acc, prevDigit, seen =>
    if isHexDigitChar c then hexCore rest (acc * 16 + hexDigitVal c) true true
    else if c = '_' && prevDigit then hexCore rest acc false seen
    else none

/-- Python's `int(s, 16)` on an already-whitespace-stripped string: optional
sign, optional `0x`/`0X` prefix, then hex digits with underscores between
digits; `none` models `ValueError`. -/
def pyIntHexList (cs : List Char) : Option Int :=
  let signed : Int × List Char :=
    match cs with
    | '+' :: rest => (1, rest)
    | '-' :: rest => (-1, rest)
    | _ => (1, cs)
  let prefixed : List Char × Bool :=
    match signed.2 with
    | '0' :: 'x' :: rest => (rest, true)
    | '0' :: 'X' :: rest => (rest, true)
    | _ => (signed.2, false)
  match hexCore prefixed.1 0 prefixed.2 false with
  | some n => some (signed.1 * (n : Int))
  | none => none

/-- A Python whitespace character (`str.strip()` default set, ASCII part). -/
def isPySpace (c : Char) : Bool :=
  (c = ' ') || (c = '\t') || (c = '\n') || (c = '\r') || (c = '\x0b') || (c = '\x0c')

/-- `s.strip()`. -/
def stripChars (cs : List Char) : List Char :=
  ((cs.dropWhile isPySpace).reverse.dropWhile isPySpace).reverse

/-- `s.lstrip("#")`. -/
def lstripHashChars (cs : List Char) : List Char :=
  cs.dropWhile (fun c => c = '#')

/-- The color state of `ModernColorPicker` (see section comment above). -/
structure PickerState where
  red : Int
  green : Int
  blue : Int
deriving DecidableEq

/-- `ModernColorPicker._set_color_from_hex` (lines 292-302): strip `#`, and
when exactly 6 characters remain, parse the three 2-character slices with
`int(-, 16)` and overwrite the color.  `none` models a `ValueError` escaping
(the caller catches it); with fewer or more than 6 characters the method
silently does nothing. -/
def set_color_from_hex (st : PickerState) (hex_color : String) : Option PickerState :=
  let cs := lstripHashChars hex_color.data
  if cs.length = 6 then
    match pyIntHexList (cs.take 2), pyIntHexList ((cs.drop 2).take 2),
        pyIntHexList (cs.drop 4) with
    | some r, some g, some b => some { red := r, green := g, blue := b }
    | _, _, _ => none
  else some st

/-- `ModernColorPicker._on_hex_change` (lines 329-340): strip whitespace and
leading `#`; when 6 characters remain, validate with `int(hex_val, 16)` and
apply `_set_color_from_hex`, swallowing any `ValueError`. -/
def on_hex_change (st : PickerState) (input : String) : PickerState :=
  let hex_val := lstripHashChars (stripChars input.data)
  if hex_val.length = 6 then
    match pyIntHexList hex_val with
    | none => st
    | some _ =>
      match set_color_from_hex st (String.mk hex_val) with
      | none => st
      | some st' => st'
  else st

/-- A valid 6-digit hexadecimal color string: exactly six hex digits. -/
def isValidHex6 (s : String) : Bool :=
  (s.data.length == 6) && s.data.all isHexDigitChar

/-- A picker holding white, as a concrete starting state. -/
def pickerInit : PickerState where
  red := 255
  green := 255
  blue := 255

/-! ### Concrete states used by counterexamples and witnesses -/

/-- A fresh designer on a 51×51 grid. -/
def c1_cex_start : Designer := initialDesigner 51

/-- 51 one-cell strokes (cells `(0,0) … (0,50)`, each turned from the default
to the selected color), followed by 51 `undo()` calls. -/
def c1_cex_end : Designer :=
  undoAll 51 (runStrokes c1_cex_start ((List.range 51).map (fun k => ((0, k), []))))

/-- A fresh 2×2 designer. -/
def c1_wit_d : Designer := initialDesigner 2

/-- A fresh 1×1 designer. -/
def c2_wit_d : Designer := initialDesigner 1

/-- A fresh 2×2 designer. -/
def c3_wit_d : Designer := initialDesigner 2

/-- A 2×2 designer in which cell `(1,1)` was painted (one recorded stroke in
the undo log) and then the single default-colored cell `(0,0)` was selected. -/
def c4_cex_d : Designer :=
  let d1 := on_canvas_release (on_canvas_click (initialDesigner 2) (1, 1))
  on_selection_end (on_selection_start d1 (some (0, 0))) (some (0, 0))

/-- A fresh 2×2 designer with the cell `(0,0)` selected. -/
def c4_wit_d : Designer :=
  { initialDesigner 2 with selection_start := some (0, 0), selection_end := some (0, 0) }

/-- A 2×2 designer with four distinct cell colors whose whole-grid selection
was dragged from the bottom-right corner `(1,1)` to the top-left `(0,0)`, so
`selection_start` is the maximal corner. -/
def c5_cex_d : Designer :=
  let d := { initialDesigner 2 with
             grid_data := [["#111111", "#222222"], ["#333333", "#444444"]] }
  on_selection_end (on_selection_start d (some (1, 1))) (some (0, 0))

/-- A 2×2 designer with the whole grid selected from the top-left corner. -/
def c5_wit_d : Designer :=
  { initialDesigner 2 with selection_start := some (0, 0), selection_end := some (1, 1) }

/-- A fresh 2×2 designer holding a 1×1 clipboard block. -/
def c6_wit_d : Designer :=
  { initialDesigner 2 with clipboard := some [["#111111"]] }

/-- A fresh 2×2 designer in mark mode. -/
def c7_wit_d : Designer :=
  { initialDesigner 2 with mark_mode := true }

/-- A fresh 2×2 designer. -/
def c9_wit_d : Designer := initialDesigner 2

/-- A parsed project document holding a well-typed 1×1 grid. -/
def c9_wit_proj : ProjectFile where
  grid_data := some [LoadedRow.cells ["#111111"]]
  marked_tiles := none

/-- A parsed but malformed project document, the model of
`{"grid_data": [["#111111"], 5]}`: its first grid row is a list, its second
a number on which `len()` raises. -/
def c9_cex_proj : ProjectFile where
  grid_data := some [LoadedRow.cells ["#111111"], LoadedRow.bad]
  marked_tiles := none

/-- A fresh 2×2 designer. -/
def c10_wit_d : Designer := initialDesigner 2

/-! ## Lemmas: grid primitives -/

theorem getD_set_self {α : Type _} (l : List α) (i : Nat) (a d : α)
    (h : i < l.length) : (l.set i a).getD i d = a := by
  simp [List.getD_eq_getElem?_getD, List.getElem?_set_self h]

theorem getD_set_ne {α : Type _} (l : List α) (i j : Nat) (a d : α)
    (h : i ≠ j) : (l.set i a).getD j d = l.getD j d := by
  simp [List.getD_eq_getElem?_getD, List.getElem?_set_ne h]

theorem set_getD_self {α : Type _} (l : List α) (i : Nat) (d : α) :
    l.set i (l.getD i d) = l := by
  induction l generalizing i with
  | nil => rfl
  | cons x xs ih =>
    cases i with
    | zero => simp [List.getD]
    | succ n => simp [List.getD] at ih ⊢; exact ih n

theorem shape_row_length {g : Grid} {n : Nat} (h : gridShape g n) {r : Nat}
    (hr : r < n) : (g.getD r []).length = n := by
  obtain ⟨hlen, hrow⟩ := h
  have hr' : r < g.length := by omega
  rw [List.getD_eq_getElem?_getD, List.getElem?_eq_getElem hr']
  exact hrow _ (List.getElem_mem hr')

theorem shape_gridSet {g : Grid} {n : Nat} (h : gridShape g n) (r c : Nat)
    (v : Color) : gridShape (gridSet g r c v) n := by
  obtain ⟨hlen, hrow⟩ := h
  by_cases hr : r < g.length
  · refine ⟨by simp [gridSet, hlen], ?_⟩
    intro row hmem
    rcases List.mem_or_eq_of_mem_set hmem with hmem' | rfl
    · exact hrow _ hmem'
    · rw [List.length_set]
      exact shape_row_length ⟨hlen, hrow⟩ (by omega)
  · unfold gridSet
    have e : g.set r ((g.getD r []).set c v) = g :=
      List.set_eq_of_length_le (by omega)
    rw [e]
    exact ⟨hlen, hrow⟩

theorem gridGet_gridSet_self {g : Grid} {r c : Nat} {v : Color}
    (hr : r < g.length) (hc : c < (g.getD r []).length) :
    gridGet (gridSet g r c v) r c = v := by
  unfold gridGet gridSet
  rw [getD_set_self _ _ _ _ hr, getD_set_self _ _ _ _ hc]

theorem gridGet_gridSet_ne {g : Grid} {r c r' c' : Nat} {v : Color}
    (h : (r, c) ≠ (r', c')) :
    gridGet (gridSet g r c v) r' c' = gridGet g r' c' := by
  unfold gridGet gridSet
  by_cases hrr : r = r'
  · subst hrr
    have hcc : c ≠ c' := by intro h'; exact h (by rw [h'])
    by_cases hlt : r < g.length
    · rw [getD_set_self _ _ _ _ hlt, getD_set_ne _ _ _ _ _ hcc]
    · have e : ∀ x, g.set r x = g := fun x => List.set_eq_of_length_le (by omega)
      simp only [e]
  · rw [getD_set_ne _ _ _ _ _ hrr]

theorem gridSet_gridSet_self (g : Grid) (r c : Nat) (v w : Color) :
    gridSet (gridSet g r c v) r c w = gridSet g r c w := by
  unfold gridSet
  by_cases hlt : r < g.length
  · rw [getD_set_self _ _ _ _ hlt, List.set_set, List.set_set]
  · have e : ∀ x, g.set r x = g := fun x => List.set_eq_of_length_le (by omega)
    simp only [e]

theorem gridSet_comm {g : Grid} {r c r' c' : Nat} {v v' : Color}
    (h : (r, c) ≠ (r', c')) :
    gridSet (gridSet g r c v) r' c' v' = gridSet (gridSet g r' c' v') r c v := by
  unfold gridSet
  by_cases hrr : r = r'
  · subst hrr
    have hcc : c ≠ c' := by intro h'; exact h (by rw [h'])
    by_cases hlt : r < g.length
    · rw [getD_set_self _ _ _ _ hlt, getD_set_self _ _ _ _ hlt,
        List.set_set, List.set_set, List.set_comm _ _ _ hcc]
    · have e : ∀ x, g.set r x = g := fun x => List.set_eq_of_length_le (by omega)
      simp only [e]
  · rw [getD_set_ne _ _ _ _ _ hrr, getD_set_ne _ _ _ _ _ (fun h' => hrr h'.symm),
      List.set_comm _ _ _ hrr]

theorem gridSet_gridGet_self (g : Grid) (r c : Nat) :
    gridSet g r c (gridGet g r c) = g := by
  unfold gridSet gridGet
  rw [set_getD_self, set_getD_self]

/-! ## Lemmas: applyStroke -/

theorem applyStroke_append (g : Grid) (s : List StrokeEntry) (e : StrokeEntry) :
    applyStroke g (s ++ [e]) = gridSet (applyStroke g s) e.1 e.2.1 e.2.2 := by
  unfold applyStroke
  rw [List.foldl_append]
  rfl

theorem applyStroke_gridSet_comm {s : List StrokeEntry} {r c : Nat} {v : Color}
    (h : ∀ e ∈ s, (e.1, e.2.1) ≠ (r, c)) (g : Grid) :
    applyStroke (gridSet g r c v) s = gridSet (applyStroke g s) r c v := by
  induction s generalizing g with
  | nil => rfl
  | cons e rest ih =>
    have he : (e.1, e.2.1) ≠ (r, c) := h e (List.mem_cons_self _ _)
    show applyStroke (gridSet (gridSet g r c v) e.1 e.2.1 e.2.2) rest =
      gridSet (applyStroke (gridSet g e.1 e.2.1 e.2.2) rest) r c v
    rw [gridSet_comm (Ne.symm he)]
    exact ih (fun e' he' => h e' (List.mem_cons_of_mem _ he')) _

theorem gridGet_applyStroke_ne {s : List StrokeEntry} {r c : Nat}
    (h : ∀ e ∈ s, (e.1, e.2.1) ≠ (r, c)) (g : Grid) :
    gridGet (applyStroke g s) r c = gridGet g r c := by
  induction s generalizing g with
  | nil => rfl
  | cons e rest ih =>
    show gridGet (applyStroke (gridSet g e.1 e.2.1 e.2.2) rest) r c = _
    rw [ih (fun e' he' => h e' (List.mem_cons_of_mem _ he')) _]
    exact gridGet_gridSet_ne (h e (List.mem_cons_self _ _))

theorem shape_applyStroke {g : Grid} {n : Nat} (h : gridShape g n)
    (s : List StrokeEntry) : gridShape (applyStroke g s) n := by
  induction s generalizing g with
  | nil => exact h
  | cons e rest ih =>
    show gridShape (applyStroke (gridSet g e.1 e.2.1 e.2.2) rest) n
    exact ih (shape_gridSet h _ _ _)

/-! ## Lemmas: cellsFrom -/

theorem mem_cellsFrom {a b m : Nat} {w : Nat → Nat} {r c : Nat} :
    (r, c) ∈ cellsFrom a b m w ↔
      ∃ i, i < m ∧ ∃ j, j < w i ∧ r = a + i ∧ c = b + j := by
  simp only [cellsFrom, List.mem_flatMap, List.mem_map, List.mem_range, Prod.mk.injEq]
  constructor
  · rintro ⟨i, hi, j, hj, h1, h2⟩
    exact ⟨i, hi, j, hj, h1.symm, h2.symm⟩
  · rintro ⟨i, hi, j, hj, rfl, rfl⟩
    exact ⟨i, hi, j, hj, rfl, rfl⟩

theorem cellsFrom_nodup (a b m : Nat) (w : Nat → Nat) : (cellsFrom a b m w).Nodup := by
  unfold cellsFrom
  rw [List.nodup_flatMap]
  constructor
  · intro i _
    refine List.Nodup.map ?_ (List.nodup_range _)
    intro x y hxy
    have h2 : b + x = b + y := congrArg Prod.snd hxy
    omega
  · have hp : List.Pairwise (· ≠ ·) (List.range m) :=
      (List.pairwise_lt_range m).imp Nat.ne_of_lt
    refine List.Pairwise.imp ?_ hp
    intro i i' hne x hx hx'
    simp only [Function.onFun, List.mem_map, List.mem_range] at hx hx'
    obtain ⟨j, hj, rfl⟩ := hx
    obtain ⟨j', hj', hh⟩ := hx'
    have h1 : a + i' = a + i := congrArg Prod.fst hh
    omega

/-! ## Lemmas: push_stroke and undo -/

theorem push_stroke_length_le {h : List (List StrokeEntry)} (s : List StrokeEntry)
    (hl : h.length ≤ max_undo) : (push_stroke h s).length ≤ max_undo := by
  unfold push_stroke max_undo at *
  split
  · simp only [List.length_tail, List.length_append, List.length_cons, List.length_nil]
    omega
  · next hgt =>
    simp only [List.length_append, List.length_cons, List.length_nil] at hgt ⊢
    omega

theorem push_stroke_eq_append {h : List (List StrokeEntry)} {s : List StrokeEntry}
    (hl : h.length < max_undo) : push_stroke h s = h ++ [s] := by
  unfold push_stroke max_undo at *
  rw [if_neg]
  simp only [List.length_append, List.length_cons, List.length_nil]
  omega

theorem push_stroke_eq_tail_append {h : List (List StrokeEntry)} {s : List StrokeEntry}
    (hl : h.length = max_undo) : push_stroke h s = h.tail ++ [s] := by
  unfold push_stroke max_undo at *
  rw [if_pos, List.tail_append_of_ne_nil]
  · intro hnil
    rw [hnil] at hl
    simp at hl
  · simp only [List.length_append, List.length_cons, List.length_nil]
    omega

theorem push_stroke_getLast (h : List (List StrokeEntry)) (s : List StrokeEntry) :
    (push_stroke h s).getLast? = some s := by
  unfold push_stroke
  split
  · next hgt =>
    have hne : h ≠ [] := by
      intro hnil
      rw [hnil] at hgt
      simp [max_undo] at hgt
    rw [List.tail_append_of_ne_nil hne, List.getLast?_concat]
  · rw [List.getLast?_concat]

theorem undo_of_concat {d : Designer} {h₀ : List (List StrokeEntry)}
    {s : List StrokeEntry} (hh : d.undo_history = h₀ ++ [s]) :
    (undo d).undo_history = h₀ ∧ (undo d).grid_data = applyStroke d.grid_data s := by
  unfold undo
  rw [hh, List.getLast?_concat]
  simp [List.dropLast_concat]

theorem undo_of_nil {d : Designer} (hh : d.undo_history = []) : undo d = d := by
  unfold undo
  rw [hh]
  rfl

/-! ## Lemmas: copy_selection frame -/

theorem copy_selection_frame (d : Designer) :
    (copy_selection d).grid_data = d.grid_data ∧
    (copy_selection d).undo_history = d.undo_history ∧
    (copy_selection d).grid_size = d.grid_size ∧
    (copy_selection d).selection_start = d.selection_start ∧
    (copy_selection d).selection_end = d.selection_end ∧
    (copy_selection d).current_stroke = d.current_stroke ∧
    (copy_selection d).marked_tiles = d.marked_tiles := by
  unfold copy_selection
  cases hb : get_selection_bounds d with
  | none => exact ⟨rfl, rfl, rfl, rfl, rfl, rfl, rfl⟩
  | some b =>
    obtain ⟨b1, b2, b3, b4⟩ := b
    exact ⟨rfl, rfl, rfl, rfl, rfl, rfl, rfl⟩

theorem copy_selection_clipboard {d : Designer} {r1 c1 r2 c2 : Nat}
    (hb : get_selection_bounds d = some (r1, c1, r2, c2)) :
    (copy_selection d).clipboard =
      some ((List.range (r2 + 1 - r1)).map (fun i =>
        (List.range (c2 + 1 - c1)).map (fun j =>
          gridGet d.grid_data (r1 + i) (c1 + j)))) := by
  unfold copy_selection
  rw [hb]

theorem bounds_of_selection {d : Designer} {r1 c1 r2 c2 : Nat}
    (hs : d.selection_start = some (r1, c1)) (he : d.selection_end = some (r2, c2)) :
    get_selection_bounds d = some (min r1 r2, min c1 c2, max r1 r2, max c1 c2) := by
  unfold get_selection_bounds
  rw [hs, he]

/-! ## Lemmas: unconditional write pass (clear_grid, load_project) -/

theorem foldl_writeAll (v : Cell → Color) (n : Nat) (cells : List Cell) :
    ∀ (g : Grid), gridShape g n →
      (∀ rc ∈ cells, rc.1 < n ∧ rc.2 < n) → cells.Nodup →
      ∀ r c, gridGet (cells.foldl (fun g rc => gridSet g rc.1 rc.2 (v rc)) g) r c =
        if (r, c) ∈ cells then v (r, c) else gridGet g r c := by
  induction cells with
  | nil => intro g _ _ _ r c; simp
  | cons hd rest ih =>
    obtain ⟨a, b⟩ := hd
    intro g hsh hin hnd r c
    have hd_in : a < n ∧ b < n := hin ⟨a, b⟩ (List.mem_cons_self _ _)
    have step := ih (gridSet g a b (v (a, b))) (shape_gridSet hsh a b _)
      (fun rc h => hin rc (List.mem_cons_of_mem _ h)) (List.Nodup.of_cons hnd) r c
    show gridGet (List.foldl _ (gridSet g a b (v (a, b))) rest) r c = _
    rw [step]
    by_cases hmem : (r, c) ∈ rest
    · rw [if_pos hmem, if_pos (List.mem_cons_of_mem _ hmem)]
    · by_cases heq : (r, c) = (a, b)
      · injection heq with hra hcb
        subst hra
        subst hcb
        rw [if_neg hmem, if_pos (List.mem_cons_self _ _)]
        exact gridGet_gridSet_self
          (by obtain ⟨hlen, _⟩ := hsh; omega)
          (by rw [shape_row_length hsh hd_in.1]; exact hd_in.2)
      · rw [if_neg hmem, if_neg (fun hmm =>
          (List.mem_cons.mp hmm).elim (fun h1 => heq h1) (fun h2 => hmem h2))]
        exact gridGet_gridSet_ne (fun hh => heq hh.symm)

/-! ## Lemmas: guarded write pass (cut_selection, paste_selection) -/

theorem guardedWriteFold_noop (guard : Cell → Prop) [DecidablePred guard]
    (ops : List (Cell × Color)) :
    ∀ (g : Grid) (ud : List StrokeEntry),
      (∀ p ∈ ops, gridGet g p.1.1 p.1.2 = p.2) →
      guardedWriteFold guard (g, ud) ops = (g, ud) := by
  induction ops with
  | nil => intro g ud _; rfl
  | cons p ops ih =>
    intro g ud hall
    have h := hall p (List.mem_cons_self _ _)
    have hstep : guardedWriteFold guard (g, ud) (p :: ops) =
        guardedWriteFold guard (g, ud) ops := by
      by_cases hg : guard p.1
      · simp [guardedWriteFold, write_step, hg, h]
      · simp [guardedWriteFold, hg]
    rw [hstep]
    exact ih g ud (fun q hq => hall q (List.mem_cons_of_mem _ hq))

theorem cut_fold_eq (cells : List Cell) (init : Grid × List StrokeEntry) :
    cells.foldl (fun acc rc => write_step acc rc default_color) init =
      guardedWriteFold (fun _ => True) init
        (cells.map (fun rc => (rc, default_color))) := by
  simp only [guardedWriteFold, List.foldl_map]
  simp

theorem writeFold_inv (guard : Cell → Prop) [DecidablePred guard] (n : Nat)
    (g₀ : Grid) (ops : List (Cell × Color)) :
    ∀ (g : Grid) (ud : List StrokeEntry),
      (ops.map Prod.fst).Nodup →
      gridShape g n →
      (∀ p ∈ ops, guard p.1 → p.1.1 < n ∧ p.1.2 < n) →
      applyStroke g ud = g₀ →
      (∀ e ∈ ud, (e.1, e.2.1) ∉ ops.map Prod.fst) →
      (∀ p ∈ ops, gridGet g p.1.1 p.1.2 = gridGet g₀ p.1.1 p.1.2) →
      (guardedWriteFold guard (g, ud) ops).2 = ud ++ changedEntries guard g₀ ops ∧
      applyStroke (guardedWriteFold guard (g, ud) ops).1
          (guardedWriteFold guard (g, ud) ops).2 = g₀ ∧
      gridShape (guardedWriteFold guard (g, ud) ops).1 n ∧
      (∀ p ∈ ops, guard p.1 →
        gridGet (guardedWriteFold guard (g, ud) ops).1 p.1.1 p.1.2 = p.2) ∧
      (∀ r c, (∀ p ∈ ops, ¬(guard p.1 ∧ p.1 = (r, c))) →
        gridGet (guardedWriteFold guard (g, ud) ops).1 r c = gridGet g r c) ∧
      (changedEntries guard g₀ ops = [] →
        (guardedWriteFold guard (g, ud) ops).1 = g) := by
  induction ops with
  | nil =>
    intro g ud _ hsh _ hap _ _
    refine ⟨by simp [guardedWriteFold, changedEntries], ?_, hsh, ?_, ?_, ?_⟩
    · simpa [guardedWriteFold, applyStroke] using hap
    · intro p hp
      exact absurd hp (List.not_mem_nil _)
    · intro r c _
      rfl
    · intro _
      rfl
  | cons p ops ih =>
    intro g ud hnd hsh hrange hap hdisj hagree
    obtain ⟨⟨pr, pc⟩, pcol⟩ := p
    have hnd' := (List.nodup_cons.mp hnd).2
    have hp_not : ((pr, pc) : Cell) ∉ ops.map Prod.fst := (List.nodup_cons.mp hnd).1
    by_cases hg : guard (pr, pc)
    · by_cases hold : gridGet g pr pc = pcol
      · -- guarded but already the target color: accumulator unchanged
        have hstep : guardedWriteFold guard (g, ud) (((pr, pc), pcol) :: ops) =
            guardedWriteFold guard (g, ud) ops := by
          simp [guardedWriteFold, write_step, hg, hold]
        have hch : changedEntries guard g₀ (((pr, pc), pcol) :: ops) =
            changedEntries guard g₀ ops := by
          have hg0 : gridGet g₀ pr pc = pcol := by
            rw [← hagree ((pr, pc), pcol) (List.mem_cons_self _ _)]
            exact hold
          simp [changedEntries, hg0]
        obtain ⟨ih1, ih2, ih3, ih4, ih5, ih6⟩ := ih g ud hnd' hsh
          (fun q hq => hrange q (List.mem_cons_of_mem _ hq)) hap
          (fun e he hmm => hdisj e he (List.mem_cons_of_mem _ hmm))
          (fun q hq => hagree q (List.mem_cons_of_mem _ hq))
        rw [hstep, hch]
        refine ⟨ih1, ih2, ih3, ?_, ?_, ih6⟩
        · intro q hq hgq
          rcases List.mem_cons.mp hq with rfl | hq'
          · rw [ih5 pr pc (fun q' hq' hbad =>
              hp_not (hbad.2 ▸ List.mem_map_of_mem Prod.fst hq'))]
            exact hold
          · exact ih4 q hq' hgq
        · intro r c hnone
          exact ih5 r c (fun q hq => hnone q (List.mem_cons_of_mem _ hq))
      · -- guarded and changing: write the cell and record the old color
        have hrange' : pr < n ∧ pc < n :=
          hrange ((pr, pc), pcol) (List.mem_cons_self _ _) hg
        have hold0 : gridGet g pr pc = gridGet g₀ pr pc :=
          hagree ((pr, pc), pcol) (List.mem_cons_self _ _)
        have hstep : guardedWriteFold guard (g, ud) (((pr, pc), pcol) :: ops) =
            guardedWriteFold guard
              (gridSet g pr pc pcol, ud ++ [(pr, pc, gridGet g pr pc)]) ops := by
          simp [guardedWriteFold, write_step, hg, hold]
        have hch : changedEntries guard g₀ (((pr, pc), pcol) :: ops) =
            (pr, pc, gridGet g₀ pr pc) :: changedEntries guard g₀ ops := by
          have hg0 : gridGet g₀ pr pc ≠ pcol := by
            rw [← hold0]
            exact hold
          simp [changedEntries, hg, hg0]
        have hud_ne : ∀ e ∈ ud, (e.1, e.2.1) ≠ ((pr, pc) : Cell) := by
          intro e he hcell
          exact hdisj e he (hcell ▸ List.mem_cons_self _ _)
        have hap' : applyStroke (gridSet g pr pc pcol)
            (ud ++ [(pr, pc, gridGet g pr pc)]) = g₀ := by
          rw [show ((pr, pc, gridGet g pr pc) : StrokeEntry) =
                ((pr, pc, gridGet g pr pc) : StrokeEntry) from rfl,
            applyStroke_append, applyStroke_gridSet_comm hud_ne, hap]
          show gridSet (gridSet g₀ pr pc pcol) pr pc (gridGet g pr pc) = g₀
          rw [gridSet_gridSet_self, hold0, gridSet_gridGet_self]
        obtain ⟨ih1, ih2, ih3, ih4, ih5, ih6⟩ := ih (gridSet g pr pc pcol)
          (ud ++ [(pr, pc, gridGet g pr pc)]) hnd'
          (shape_gridSet hsh _ _ _)
          (fun q hq => hrange q (List.mem_cons_of_mem _ hq)) hap'
          (fun e he => by
            rcases List.mem_append.mp he with he' | he'
            · exact fun hmm => hdisj e he' (List.mem_cons_of_mem _ hmm)
            · simp only [List.mem_singleton] at he'
              subst he'
              exact hp_not)
          (fun q hq => by
            have hq_ne : q.1 ≠ ((pr, pc) : Cell) := by
              intro hcell
              exact hp_not (hcell ▸ List.mem_map_of_mem Prod.fst hq)
            rw [show gridGet (gridSet g pr pc pcol) q.1.1 q.1.2 =
                  gridGet g q.1.1 q.1.2 from
                gridGet_gridSet_ne (fun hh =>
                  hq_ne (Prod.mk.eta.symm.trans hh.symm))]
            exact hagree q (List.mem_cons_of_mem _ hq))
        rw [hstep, hch]
        refine ⟨?_, ih2, ih3, ?_, ?_, ?_⟩
        · rw [ih1, hold0]
          simp
        · intro q hq hgq
          rcases List.mem_cons.mp hq with rfl | hq'
          · rw [ih5 pr pc (fun q' hq' hbad =>
              hp_not (hbad.2 ▸ List.mem_map_of_mem Prod.fst hq'))]
            exact gridGet_gridSet_self
              (by obtain ⟨hlen, _⟩ := hsh; omega)
              (by rw [shape_row_length hsh hrange'.1]; exact hrange'.2)
          · exact ih4 q hq' hgq
        · intro r c hnone
          have hpcell : ((pr, pc) : Cell) ≠ (r, c) := by
            intro hcell
            exact hnone ((pr, pc), pcol) (List.mem_cons_self _ _) ⟨hg, hcell⟩
          rw [ih5 r c (fun q hq => hnone q (List.mem_cons_of_mem _ hq))]
          exact gridGet_gridSet_ne hpcell
        · intro hch'
          exact absurd hch' (List.cons_ne_nil _ _)
    · -- unguarded: skipped entirely
      have hstep : guardedWriteFold guard (g, ud) (((pr, pc), pcol) :: ops) =
          guardedWriteFold guard (g, ud) ops := by
        simp [guardedWriteFold, hg]
      have hch : changedEntries guard g₀ (((pr, pc), pcol) :: ops) =
          changedEntries guard g₀ ops := by
        simp [changedEntries, hg]
      obtain ⟨ih1, ih2, ih3, ih4, ih5, ih6⟩ := ih g ud hnd' hsh
        (fun q hq => hrange q (List.mem_cons_of_mem _ hq)) hap
        (fun e he hmm => hdisj e he (List.mem_cons_of_mem _ hmm))
        (fun q hq => hagree q (List.mem_cons_of_mem _ hq))
      rw [hstep, hch]
      refine ⟨ih1, ih2, ih3, ?_, ?_, ih6⟩
      · intro q hq hgq
        rcases List.mem_cons.mp hq with rfl | hq'
        · exact absurd hgq hg
        · exact ih4 q hq' hgq
      · intro r c hnone
        exact ih5 r c (fun q hq => hnone q (List.mem_cons_of_mem _ hq))

/-! ## Lemmas: cut_selection / paste_selection projections -/

theorem cut_result_copy (d : Designer) (a b c e : Nat) :
    cut_result (copy_selection d) a b c e = cut_result d a b c e := by
  unfold cut_result
  rw [(copy_selection_frame d).1]

theorem cut_selection_eq {d : Designer} {r1 c1 r2 c2 : Nat}
    (hb : get_selection_bounds d = some (r1, c1, r2, c2)) :
    (cut_selection d).grid_data = (cut_result d r1 c1 r2 c2).1 ∧
    (cut_selection d).undo_history =
      (if (cut_result d r1 c1 r2 c2).2 = [] then d.undo_history
       else push_stroke d.undo_history (cut_result d r1 c1 r2 c2).2) := by
  unfold cut_selection
  rw [hb]
  dsimp only
  rw [cut_result_copy, (copy_selection_frame d).2.1]
  exact ⟨rfl, rfl⟩

theorem paste_selection_eq {d : Designer} {clip : List (List Color)}
    (hc : d.clipboard = some clip) (hnil : clip ≠ []) :
    paste_selection d = paste_apply d clip := by
  unfold paste_selection
  rw [hc]
  dsimp only
  rw [if_neg hnil]

theorem paste_apply_proj (d : Designer) (clip : List (List Color)) :
    (paste_apply d clip).grid_data = (paste_result d clip).1 ∧
    (paste_apply d clip).undo_history =
      (if (paste_result d clip).2 = [] then d.undo_history
       else push_stroke d.undo_history (paste_result d clip).2) := by
  unfold paste_apply
  cases hsel : d.selection_start with
  | none => exact ⟨rfl, rfl⟩
  | some p => exact ⟨rfl, rfl⟩

/-! ## Claim C2 -/

/-- C2: after any stroke-appending operation (stroke release, cut, paste) a
undo log of at most `max_undo = 50` strokes stays at most 50 strokes; an
append at capacity drops the oldest stroke (the list head) first, below
capacity it appends; `undo()` pops exactly the most recent stroke. -/
theorem c2_undo_log_bounded (d : Designer)
    (hl : d.undo_history.length ≤ max_undo) :
    (on_canvas_release d).undo_history.length ≤ max_undo ∧
    (cut_selection d).undo_history.length ≤ max_undo ∧
    (paste_selection d).undo_history.length ≤ max_undo ∧
    (∀ s, d.undo_history.length = max_undo →
      push_stroke d.undo_history s = d.undo_history.tail ++ [s]) ∧
    (∀ s, d.undo_history.length < max_undo →
      push_stroke d.undo_history s = d.undo_history ++ [s]) ∧
    (undo d).undo_history = d.undo_history.dropLast ∧
    (∀ h₀ s, d.undo_history = h₀ ++ [s] →
      (undo d).undo_history = h₀ ∧
      (undo d).grid_data = applyStroke d.grid_data s) := by
  refine ⟨?_, ?_, ?_, fun s h => push_stroke_eq_tail_append h,
    fun s h => push_stroke_eq_append h, ?_, fun h₀ s hh => undo_of_concat hh⟩
  · unfold on_canvas_release
    dsimp only
    split
    · exact hl
    · exact push_stroke_length_le _ hl
  · unfold cut_selection
    cases hb : get_selection_bounds d with
    | none => exact hl
    | some b =>
      obtain ⟨b1, b2, b3, b4⟩ := b
      dsimp only
      rw [cut_result_copy, (copy_selection_frame d).2.1]
      split
      · exact hl
      · exact push_stroke_length_le _ hl
  · unfold paste_selection
    cases hc : d.clipboard with
    | none => exact hl
    | some clip =>
      dsimp only
      by_cases hnil : clip = []
      · rw [if_pos hnil]
        exact hl
      · rw [if_neg hnil, (paste_apply_proj d clip).2]
        split
        · exact hl
        · exact push_stroke_length_le _ hl
  · cases hh : d.undo_history.getLast? with
    | none =>
      have hnil := List.getLast?_eq_none_iff.mp hh
      rw [undo_of_nil hnil, hnil]
      rfl
    | some s =>
      unfold undo
      rw [hh]

/-- C2 witness: the theorem applied to a fresh 1×1 designer. -/
theorem c2_undo_log_bounded_witness :
    (on_canvas_release c2_wit_d).undo_history.length ≤ max_undo ∧
    (cut_selection c2_wit_d).undo_history.length ≤ max_undo ∧
    (paste_selection c2_wit_d).undo_history.length ≤ max_undo ∧
    (∀ s, c2_wit_d.undo_history.length = max_undo →
      push_stroke c2_wit_d.undo_history s = c2_wit_d.undo_history.tail ++ [s]) ∧
    (∀ s, c2_wit_d.undo_history.length < max_undo →
      push_stroke c2_wit_d.undo_history s = c2_wit_d.undo_history ++ [s]) ∧
    (undo c2_wit_d).undo_history = c2_wit_d.undo_history.dropLast ∧
    (∀ h₀ s, c2_wit_d.undo_history = h₀ ++ [s] →
      (undo c2_wit_d).undo_history = h₀ ∧
      (undo c2_wit_d).grid_data = applyStroke c2_wit_d.grid_data s) :=
  c2_undo_log_bounded c2_wit_d (by decide)

/-! ## Claim C3 -/

/-- C3: for an in-range cell, painting a cell already holding the selected
color changes nothing and records nothing; otherwise the previous color is
appended to the open stroke and the cell overwritten; on release the stroke
is appended to the undo log exactly when non-empty (empty strokes are
discarded), and the open stroke is cleared. -/
theorem c3_paint_semantics (d : Designer) (r c : Nat)
    (hr : r < d.grid_size) (hc : c < d.grid_size)
    (hsh : gridShape d.grid_data d.grid_size) :
    (gridGet d.grid_data r c = paint_color d → paint_tile d r c true = d) ∧
    (gridGet d.grid_data r c ≠ paint_color d →
      gridGet (paint_tile d r c true).grid_data r c = paint_color d ∧
      (paint_tile d r c true).grid_data =
        gridSet d.grid_data r c (paint_color d) ∧
      (paint_tile d r c true).current_stroke =
        d.current_stroke ++ [(r, c, gridGet d.grid_data r c)] ∧
      (paint_tile d r c true).undo_history = d.undo_history) ∧
    ((on_canvas_release d).undo_history =
      if d.current_stroke = [] then d.undo_history
      else push_stroke d.undo_history d.current_stroke) ∧
    (on_canvas_release d).current_stroke = [] := by
  refine ⟨?_, ?_, ?_, ?_⟩
  · intro h
    simp [paint_tile, h]
  · intro h
    have hgrid : (paint_tile d r c true).grid_data =
        gridSet d.grid_data r c (paint_color d) := by
      simp [paint_tile, h]
    refine ⟨?_, hgrid, ?_, ?_⟩
    · rw [hgrid]
      exact gridGet_gridSet_self
        (by obtain ⟨hlen, _⟩ := hsh; omega)
        (by rw [shape_row_length hsh hr]; exact hc)
    · simp [paint_tile, h]
    · simp [paint_tile, h]
  · by_cases hcs : d.current_stroke = []
    · simp [on_canvas_release, hcs]
    · simp [on_canvas_release, hcs]
  · by_cases hcs : d.current_stroke = []
    · simp [on_canvas_release, hcs]
    · simp [on_canvas_release, hcs]

/-- C3 witness: the theorem applied at cell `(0,0)` of a fresh 2×2 designer. -/
theorem c3_paint_semantics_witness :
    (gridGet c3_wit_d.grid_data 0 0 = paint_color c3_wit_d →
      paint_tile c3_wit_d 0 0 true = c3_wit_d) ∧
    (gridGet c3_wit_d.grid_data 0 0 ≠ paint_color c3_wit_d →
      gridGet (paint_tile c3_wit_d 0 0 true).grid_data 0 0 = paint_color c3_wit_d ∧
      (paint_tile c3_wit_d 0 0 true).grid_data =
        gridSet c3_wit_d.grid_data 0 0 (paint_color c3_wit_d) ∧
      (paint_tile c3_wit_d 0 0 true).current_stroke =
        c3_wit_d.current_stroke ++ [(0, 0, gridGet c3_wit_d.grid_data 0 0)] ∧
      (paint_tile c3_wit_d 0 0 true).undo_history = c3_wit_d.undo_history) ∧
    ((on_canvas_release c3_wit_d).undo_history =
      if c3_wit_d.current_stroke = [] then c3_wit_d.undo_history
      else push_stroke c3_wit_d.undo_history c3_wit_d.current_stroke) ∧
    (on_canvas_release c3_wit_d).current_stroke = [] :=
  c3_paint_semantics c3_wit_d 0 0 (by decide) (by decide) (by decide)

/-! ## Claim C10 -/

/-- C10: `clear_grid` sets every in-range cell to the default background color
`"#f5f5f5"`, appends no stroke to the undo log (its contents are untouched, so
clearing cannot be undone), and leaves the marks and the open stroke
unchanged. -/
theorem c10_clear_grid (d : Designer)
    (hsh : gridShape d.grid_data d.grid_size) :
    (∀ r c, r < d.grid_size → c < d.grid_size →
      gridGet (clear_grid d).grid_data r c = default_color) ∧
    default_color = "#f5f5f5" ∧
    (clear_grid d).undo_history = d.undo_history ∧
    (clear_grid d).marked_tiles = d.marked_tiles ∧
    (clear_grid d).current_stroke = d.current_stroke := by
  refine ⟨?_, rfl, rfl, rfl, rfl⟩
  intro r c hr hc
  have hin : ∀ rc ∈ cellsFrom 0 0 d.grid_size (fun _ => d.grid_size),
      rc.1 < d.grid_size ∧ rc.2 < d.grid_size := by
    intro rc hrc
    obtain ⟨a, b⟩ := rc
    obtain ⟨i, hi, j, hj, rfl, rfl⟩ := mem_cellsFrom.mp hrc
    exact ⟨by simpa using hi, by simpa using hj⟩
  have h : gridGet ((cellsFrom 0 0 d.grid_size (fun _ => d.grid_size)).foldl
      (fun g rc => gridSet g rc.1 rc.2 default_color) d.grid_data) r c =
      if ((r, c) : Cell) ∈ cellsFrom 0 0 d.grid_size (fun _ => d.grid_size)
      then default_color else gridGet d.grid_data r c :=
    foldl_writeAll (fun _ => default_color) d.grid_size
      (cellsFrom 0 0 d.grid_size (fun _ => d.grid_size)) d.grid_data hsh hin
      (cellsFrom_nodup _ _ _ _) r c
  have hmem : ((r, c) : Cell) ∈ cellsFrom 0 0 d.grid_size (fun _ => d.grid_size) :=
    mem_cellsFrom.mpr ⟨r, hr, c, hc, by omega, by omega⟩
  show gridGet ((cellsFrom 0 0 d.grid_size (fun _ => d.grid_size)).foldl
      (fun g rc => gridSet g rc.1 rc.2 default_color) d.grid_data) r c =
    default_color
  rw [h, if_pos hmem]

/-! ## Claim C4 -/

/-- Membership in the row-major cell list of a selection rectangle. -/
theorem mem_cellsFrom_rect {r1 c1 r2 c2 r c : Nat} (h1 : r1 ≤ r2) (h2 : c1 ≤ c2) :
    ((r, c) : Cell) ∈ cellsFrom r1 c1 (r2 + 1 - r1) (fun _ => c2 + 1 - c1) ↔
      r1 ≤ r ∧ r ≤ r2 ∧ c1 ≤ c ∧ c ≤ c2 := by
  rw [mem_cellsFrom]
  constructor
  · rintro ⟨i, hi, j, hj, rfl, rfl⟩
    omega
  · rintro ⟨ha, hb, hc', hd⟩
    exact ⟨r - r1, by omega, c - c1, by omega, by omega, by omega⟩

/-- Normalized selection bounds always satisfy `min ≤ max`. -/
theorem bounds_min_le_max {d : Designer} {r1 c1 r2 c2 : Nat}
    (hb : get_selection_bounds d = some (r1, c1, r2, c2)) :
    r1 ≤ r2 ∧ c1 ≤ c2 := by
  unfold get_selection_bounds at hb
  cases hs : d.selection_start with
  | none =>
    rw [hs] at hb
    simp at hb
  | some p =>
    cases he : d.selection_end with
    | none =>
      obtain ⟨a1, b1⟩ := p
      rw [hs, he] at hb
      simp at hb
    | some q =>
      obtain ⟨a1, b1⟩ := p
      obtain ⟨a2, b2⟩ := q
      rw [hs, he] at hb
      simp only [Option.some.injEq, Prod.mk.injEq] at hb
      obtain ⟨e1, e2, e3, e4⟩ := hb
      omega

/-- When the undo log ends with a known stroke, `undo` replays it. -/
theorem undo_grid_of_getLast {d : Designer} {s : List StrokeEntry}
    (hh : d.undo_history.getLast? = some s) :
    (undo d).grid_data = applyStroke d.grid_data s := by
  unfold undo
  rw [hh]

/-- C4 counterexample: in `c4_cex_d` the selected cell `(0,0)` is already at
the default color, so `cut_selection` records no stroke, and the following
`undo()` pops the stroke of an earlier paint interaction instead: the
non-selected cell `(1,1)` changes, contradicting the claim that
cut-then-undo leaves all cells outside the selection unchanged. -/
theorem c4_cut_then_undo_counterexample :
    gridGet (undo (cut_selection c4_cex_d)).grid_data 1 1 ≠
      gridGet c4_cex_d.grid_data 1 1 ∧
    get_selection_bounds c4_cex_d = some (0, 0, 0, 0) := by
  constructor
  · decide
  · decide

/-- C4 (amended): for every active selection lying inside a well-formed grid,
cut resets the selected cells to the default color, leaves all other cells
unchanged, and records exactly the cleared cells that were not already at the
default color (with their previous colors, in row-major order); provided the
undo log was empty before the cut or at least one selected cell was not at
the default color, cut followed immediately by undo restores the whole grid
exactly. -/
theorem c4_cut_then_undo (d : Designer) (r1 c1 r2 c2 : Nat)
    (hb : get_selection_bounds d = some (r1, c1, r2, c2))
    (hsh : gridShape d.grid_data d.grid_size)
    (hr2 : r2 < d.grid_size) (hc2 : c2 < d.grid_size)
    (hside : d.undo_history = [] ∨
      ∃ r c, r1 ≤ r ∧ r ≤ r2 ∧ c1 ≤ c ∧ c ≤ c2 ∧
        gridGet d.grid_data r c ≠ default_color) :
    (∀ r c, r1 ≤ r → r ≤ r2 → c1 ≤ c → c ≤ c2 →
      gridGet (cut_selection d).grid_data r c = default_color) ∧
    (∀ r c, ¬(r1 ≤ r ∧ r ≤ r2 ∧ c1 ≤ c ∧ c ≤ c2) →
      gridGet (cut_selection d).grid_data r c = gridGet d.grid_data r c) ∧
    (cut_selection d).undo_history =
      (if (cut_result d r1 c1 r2 c2).2 = [] then d.undo_history
       else push_stroke d.undo_history (cut_result d r1 c1 r2 c2).2) ∧
    (cut_result d r1 c1 r2 c2).2 =
      changedEntries (fun _ => True) d.grid_data
        ((cellsFrom r1 c1 (r2 + 1 - r1) (fun _ => c2 + 1 - c1)).map
          (fun rc => (rc, default_color))) ∧
    (undo (cut_selection d)).grid_data = d.grid_data := by
  obtain ⟨hr12, hc12⟩ := bounds_min_le_max hb
  have hndops : ((((cellsFrom r1 c1 (r2 + 1 - r1) (fun _ => c2 + 1 - c1)).map
      (fun rc => (rc, default_color))).map Prod.fst)).Nodup := by
    simp only [List.map_map]
    have hid : (Prod.fst ∘ fun rc => (rc, default_color)) = fun rc : Cell => rc := rfl
    rw [hid]
    simpa using cellsFrom_nodup r1 c1 (r2 + 1 - r1) (fun _ => c2 + 1 - c1)
  have hmem_ops : ∀ p ∈ (cellsFrom r1 c1 (r2 + 1 - r1)
      (fun _ => c2 + 1 - c1)).map (fun rc => (rc, default_color)),
      r1 ≤ p.1.1 ∧ p.1.1 ≤ r2 ∧ c1 ≤ p.1.2 ∧ p.1.2 ≤ c2 := by
    intro p hp
    obtain ⟨rc, hrc, rfl⟩ := List.mem_map.mp hp
    obtain ⟨a, b⟩ := rc
    exact (mem_cellsFrom_rect hr12 hc12).mp hrc
  obtain ⟨w1, w2, w3, w4, w5, w6⟩ := writeFold_inv (fun _ => True) d.grid_size
    d.grid_data
    ((cellsFrom r1 c1 (r2 + 1 - r1) (fun _ => c2 + 1 - c1)).map
      (fun rc => (rc, default_color)))
    d.grid_data [] hndops hsh
    (fun p hp _ => by have h := hmem_ops p hp; exact ⟨by omega, by omega⟩)
    rfl (fun e he => absurd he (List.not_mem_nil _)) (fun p _ => rfl)
  have hcr : cut_result d r1 c1 r2 c2 =
      guardedWriteFold (fun _ => True) (d.grid_data, [])
        ((cellsFrom r1 c1 (r2 + 1 - r1) (fun _ => c2 + 1 - c1)).map
          (fun rc => (rc, default_color))) := by
    unfold cut_result
    exact cut_fold_eq _ _
  have hch_eq : (cut_result d r1 c1 r2 c2).2 =
      changedEntries (fun _ => True) d.grid_data
        ((cellsFrom r1 c1 (r2 + 1 - r1) (fun _ => c2 + 1 - c1)).map
          (fun rc => (rc, default_color))) := by
    rw [hcr, w1]
    simp
  refine ⟨?_, ?_, (cut_selection_eq hb).2, hch_eq, ?_⟩
  · intro r c h1 h2 h3 h4
    rw [(cut_selection_eq hb).1, hcr]
    exact w4 ((r, c), default_color)
      (List.mem_map_of_mem _ ((mem_cellsFrom_rect hr12 hc12).mpr ⟨h1, h2, h3, h4⟩))
      trivial
  · intro r c hout
    rw [(cut_selection_eq hb).1, hcr]
    refine w5 r c ?_
    intro p hp hbad
    have h := hmem_ops p hp
    rw [hbad.2] at h
    exact hout ⟨h.1, h.2.1, h.2.2.1, h.2.2.2⟩
  · by_cases h2nil : (cut_result d r1 c1 r2 c2).2 = []
    · have hgrid_same : (cut_selection d).grid_data = d.grid_data := by
        rw [(cut_selection_eq hb).1, hcr]
        exact w6 (by rw [← hch_eq]; exact h2nil)
      have hhist_same : (cut_selection d).undo_history = d.undo_history := by
        rw [(cut_selection_eq hb).2, if_pos h2nil]
      rcases hside with hempty | ⟨r, c, h1, h2, h3, h4, hne⟩
      · have : undo (cut_selection d) = cut_selection d :=
          undo_of_nil (by rw [hhist_same]; exact hempty)
        rw [this, hgrid_same]
      · exfalso
        have hch_nil : changedEntries (fun _ => True) d.grid_data
            ((cellsFrom r1 c1 (r2 + 1 - r1) (fun _ => c2 + 1 - c1)).map
              (fun rc => (rc, default_color))) = [] := by
          rw [← hch_eq]
          exact h2nil
        have hforall := List.filterMap_eq_nil_iff.mp hch_nil
        have hmem : (((r, c) : Cell), default_color) ∈
            (cellsFrom r1 c1 (r2 + 1 - r1) (fun _ => c2 + 1 - c1)).map
              (fun rc => (rc, default_color)) :=
          List.mem_map_of_mem _ ((mem_cellsFrom_rect hr12 hc12).mpr ⟨h1, h2, h3, h4⟩)
        have := hforall _ hmem
        rw [if_pos ⟨trivial, hne⟩] at this
        cases this
    · have hlast : (cut_selection d).undo_history.getLast? =
          some (cut_result d r1 c1 r2 c2).2 := by
        rw [(cut_selection_eq hb).2, if_neg h2nil]
        exact push_stroke_getLast _ _
      rw [undo_grid_of_getLast hlast, (cut_selection_eq hb).1, hcr]
      exact w2

/-- C4 witness: the amended theorem applied to a fresh 2×2 designer with the
single cell `(0,0)` selected (its undo log is empty). -/
theorem c4_cut_then_undo_witness :
    (∀ r c, 0 ≤ r → r ≤ 0 → 0 ≤ c → c ≤ 0 →
      gridGet (cut_selection c4_wit_d).grid_data r c = default_color) ∧
    (∀ r c, ¬(0 ≤ r ∧ r ≤ 0 ∧ 0 ≤ c ∧ c ≤ 0) →
      gridGet (cut_selection c4_wit_d).grid_data r c =
        gridGet c4_wit_d.grid_data r c) ∧
    (cut_selection c4_wit_d).undo_history =
      (if (cut_result c4_wit_d 0 0 0 0).2 = [] then c4_wit_d.undo_history
       else push_stroke c4_wit_d.undo_history (cut_result c4_wit_d 0 0 0 0).2) ∧
    (cut_result c4_wit_d 0 0 0 0).2 =
      changedEntries (fun _ => True) c4_wit_d.grid_data
        ((cellsFrom 0 0 (0 + 1 - 0) (fun _ => 0 + 1 - 0)).map
          (fun rc => (rc, default_color))) ∧
    (undo (cut_selection c4_wit_d)).grid_data = c4_wit_d.grid_data :=
  c4_cut_then_undo c4_wit_d 0 0 0 0 (by decide) (by decide) (by decide) (by decide)
    (Or.inl (by decide))

/-! ## Claim C5 -/

/-- `getD` of a `List.range` map, inside the range. -/
theorem range_map_getD {α : Type _} {n : Nat} (f : Nat → α) {i : Nat}
    (h : i < n) (dflt : α) : ((List.range n).map f).getD i dflt = f i := by
  rw [List.getD_eq_getElem?_getD, List.getElem?_map, List.getElem?_range h]
  rfl

/-- C5 counterexample: `c5_cex_d` holds an active whole-grid selection that
was dragged from the bottom-right corner, so `selection_start = (1,1)` while
the copied block is anchored at the normalized top-left corner; pasting
writes the block at `selection_start`, changing cell `(1,1)` and recording an
undo stroke — copy-then-paste at the same location is not idempotent. -/
theorem c5_copy_paste_counterexample :
    get_selection_bounds c5_cex_d = some (0, 0, 1, 1) ∧
    ¬((paste_selection (copy_selection c5_cex_d)).grid_data = c5_cex_d.grid_data ∧
      (paste_selection (copy_selection c5_cex_d)).undo_history =
        c5_cex_d.undo_history) := by
  constructor
  · decide
  · decide

/-- C5 (amended): for every active selection whose stored `selection_start`
is its top-left corner (start row/column ≤ end row/column), copy followed by
paste leaves every grid cell unchanged and records no undo stroke. -/
theorem c5_copy_paste_idempotent (d : Designer) (r1 c1 r2 c2 : Nat)
    (hs : d.selection_start = some (r1, c1))
    (he : d.selection_end = some (r2, c2))
    (hr : r1 ≤ r2) (hc : c1 ≤ c2) :
    (paste_selection (copy_selection d)).grid_data = d.grid_data ∧
    (paste_selection (copy_selection d)).undo_history = d.undo_history := by
  have hbounds : get_selection_bounds d = some (r1, c1, r2, c2) := by
    rw [bounds_of_selection hs he, Nat.min_eq_left hr, Nat.min_eq_left hc,
      Nat.max_eq_right hr, Nat.max_eq_right hc]
  have hclip := copy_selection_clipboard hbounds
  have hlen_clip : ((List.range (r2 + 1 - r1)).map (fun i =>
      (List.range (c2 + 1 - c1)).map (fun j =>
        gridGet d.grid_data (r1 + i) (c1 + j)))).length = r2 + 1 - r1 := by
    simp
  have hnil : ((List.range (r2 + 1 - r1)).map (fun i =>
      (List.range (c2 + 1 - c1)).map (fun j =>
        gridGet d.grid_data (r1 + i) (c1 + j)))) ≠ [] := by
    intro hn
    rw [hn] at hlen_clip
    simp at hlen_clip
    omega
  have hpaste := paste_selection_eq hclip hnil
  have hanchor : ((copy_selection d).selection_start.getD (0, 0)) = (r1, c1) := by
    rw [(copy_selection_frame d).2.2.2.1, hs]
    rfl
  have hnoop : ∀ p ∈ paste_targets
      ((List.range (r2 + 1 - r1)).map (fun i =>
        (List.range (c2 + 1 - c1)).map (fun j =>
          gridGet d.grid_data (r1 + i) (c1 + j)))) r1 c1,
      gridGet (copy_selection d).grid_data p.1.1 p.1.2 = p.2 := by
    intro p hp
    unfold paste_targets at hp
    simp only [List.mem_flatMap, List.mem_map, List.mem_range] at hp
    obtain ⟨i, hi, j, hj, rfl⟩ := hp
    rw [hlen_clip] at hi
    rw [range_map_getD _ hi] at hj ⊢
    simp only [List.length_map, List.length_range] at hj
    rw [range_map_getD _ hj]
    rw [(copy_selection_frame d).1]
  have hres : paste_result (copy_selection d)
      ((List.range (r2 + 1 - r1)).map (fun i =>
        (List.range (c2 + 1 - c1)).map (fun j =>
          gridGet d.grid_data (r1 + i) (c1 + j)))) =
      ((copy_selection d).grid_data, []) := by
    unfold paste_result
    rw [hanchor]
    exact guardedWriteFold_noop _ _ _ _ hnoop
  rw [hpaste]
  constructor
  · rw [(paste_apply_proj _ _).1, hres, (copy_selection_frame d).1]
  · rw [(paste_apply_proj _ _).2, hres]
    simp [(copy_selection_frame d).2.1]

/-- C5 witness: the amended theorem applied to a 2×2 designer whose whole
grid is selected from the top-left corner. -/
theorem c5_copy_paste_idempotent_witness :
    (paste_selection (copy_selection c5_wit_d)).grid_data = c5_wit_d.grid_data ∧
    (paste_selection (copy_selection c5_wit_d)).undo_history =
      c5_wit_d.undo_history :=
  c5_copy_paste_idempotent c5_wit_d 0 0 1 1 (by decide) (by decide)
    (by decide) (by decide)

/-! ## Claim C6 -/

/-- The cells targeted by a paste are the row-major block cells. -/
theorem paste_targets_map_fst (clip : List (List Color)) (sr sc : Nat) :
    (paste_targets clip sr sc).map Prod.fst =
      cellsFrom sr sc clip.length (fun i => (clip.getD i []).length) := by
  unfold paste_targets cellsFrom
  rw [List.map_flatMap]
  congr 1
  funext i
  rw [List.map_map]
  rfl

/-- Membership in the paste target list. -/
theorem mem_paste_targets {clip : List (List Color)} {sr sc : Nat}
    {p : Cell × Color} :
    p ∈ paste_targets clip sr sc ↔
      ∃ i, i < clip.length ∧ ∃ j, j < (clip.getD i []).length ∧
        p = ((sr + i, sc + j), (clip.getD i []).getD j "") := by
  unfold paste_targets
  simp only [List.mem_flatMap, List.mem_map, List.mem_range]
  constructor
  · rintro ⟨i, hi, j, hj, rfl⟩
    exact ⟨i, hi, j, hj, rfl⟩
  · rintro ⟨i, hi, j, hj, rfl⟩
    exact ⟨i, hi, j, hj, rfl⟩

/-- C6: for every non-empty clipboard, paste writes the clipboard block at
the anchor (`selection_start`, or `(0,0)` with no selection), silently
skipping targets outside the grid, leaves every non-target cell unchanged,
and records one undo stroke holding exactly the in-bounds cells whose color
actually changed (and none when no cell changed). -/
theorem c6_paste_clipped (d : Designer) (clip : List (List Color)) (sr sc : Nat)
    (hc : d.clipboard = some clip) (hnil : clip ≠ [])
    (hanchor : d.selection_start.getD (0, 0) = (sr, sc))
    (hsh : gridShape d.grid_data d.grid_size) :
    (∀ i j, i < clip.length → j < (clip.getD i []).length →
      sr + i < d.grid_size → sc + j < d.grid_size →
      gridGet (paste_selection d).grid_data (sr + i) (sc + j) =
        (clip.getD i []).getD j "") ∧
    (∀ r c, (¬ ∃ i j, i < clip.length ∧ j < (clip.getD i []).length ∧
        r = sr + i ∧ c = sc + j ∧ r < d.grid_size ∧ c < d.grid_size) →
      gridGet (paste_selection d).grid_data r c = gridGet d.grid_data r c) ∧
    (paste_selection d).undo_history =
      (if changedEntries (fun rc => rc.1 < d.grid_size ∧ rc.2 < d.grid_size)
          d.grid_data (paste_targets clip sr sc) = []
       then d.undo_history
       else push_stroke d.undo_history
         (changedEntries (fun rc => rc.1 < d.grid_size ∧ rc.2 < d.grid_size)
           d.grid_data (paste_targets clip sr sc))) := by
  have hnd : ((paste_targets clip sr sc).map Prod.fst).Nodup := by
    rw [paste_targets_map_fst]
    exact cellsFrom_nodup _ _ _ _
  obtain ⟨w1, w2, w3, w4, w5, w6⟩ := writeFold_inv
    (fun rc => rc.1 < d.grid_size ∧ rc.2 < d.grid_size) d.grid_size
    d.grid_data (paste_targets clip sr sc) d.grid_data [] hnd hsh
    (fun p _ hg => hg) rfl (fun e he => absurd he (List.not_mem_nil _))
    (fun p _ => rfl)
  have hres2 : (guardedWriteFold
      (fun rc => rc.1 < d.grid_size ∧ rc.2 < d.grid_size)
      (d.grid_data, []) (paste_targets clip sr sc)).2 =
      changedEntries (fun rc => rc.1 < d.grid_size ∧ rc.2 < d.grid_size)
        d.grid_data (paste_targets clip sr sc) := by
    rw [w1]
    simp
  have hpr : paste_result d clip =
      guardedWriteFold (fun rc => rc.1 < d.grid_size ∧ rc.2 < d.grid_size)
        (d.grid_data, []) (paste_targets clip sr sc) := by
    unfold paste_result
    rw [hanchor]
  have hpaste := paste_selection_eq hc hnil
  refine ⟨?_, ?_, ?_⟩
  · intro i j hi hj hbr hbc
    rw [hpaste, (paste_apply_proj _ _).1, hpr]
    exact w4 ((sr + i, sc + j), (clip.getD i []).getD j "")
      (mem_paste_targets.mpr ⟨i, hi, j, hj, rfl⟩) ⟨hbr, hbc⟩
  · intro r c hnone
    rw [hpaste, (paste_apply_proj _ _).1, hpr]
    refine w5 r c ?_
    intro p hp hbad
    obtain ⟨i, hi, j, hj, rfl⟩ := mem_paste_targets.mp hp
    obtain ⟨hg, hcell⟩ := hbad
    have h1 : sr + i = r := congrArg Prod.fst hcell
    have h2 : sc + j = c := congrArg Prod.snd hcell
    have hg1 : sr + i < d.grid_size := hg.1
    have hg2 : sc + j < d.grid_size := hg.2
    exact hnone ⟨i, j, hi, hj, h1.symm, h2.symm, by omega, by omega⟩
  · rw [hpaste, (paste_apply_proj _ _).2, hpr, hres2]

/-- C6 witness: the theorem applied to a fresh 2×2 designer holding a 1×1
clipboard block, with no selection (anchor `(0,0)`). -/
theorem c6_paste_clipped_witness :
    (∀ i j, i < ([["#111111"]] : List (List Color)).length →
      j < (([["#111111"]] : List (List Color)).getD i []).length →
      0 + i < c6_wit_d.grid_size → 0 + j < c6_wit_d.grid_size →
      gridGet (paste_selection c6_wit_d).grid_data (0 + i) (0 + j) =
        (([["#111111"]] : List (List Color)).getD i []).getD j "") ∧
    (∀ r c, (¬ ∃ i j, i < ([["#111111"]] : List (List Color)).length ∧
        j < (([["#111111"]] : List (List Color)).getD i []).length ∧
        r = 0 + i ∧ c = 0 + j ∧ r < c6_wit_d.grid_size ∧ c < c6_wit_d.grid_size) →
      gridGet (paste_selection c6_wit_d).grid_data r c =
        gridGet c6_wit_d.grid_data r c) ∧
    (paste_selection c6_wit_d).undo_history =
      (if changedEntries (fun rc => rc.1 < c6_wit_d.grid_size ∧
            rc.2 < c6_wit_d.grid_size)
          c6_wit_d.grid_data (paste_targets [["#111111"]] 0 0) = []
       then c6_wit_d.undo_history
       else push_stroke c6_wit_d.undo_history
         (changedEntries (fun rc => rc.1 < c6_wit_d.grid_size ∧
            rc.2 < c6_wit_d.grid_size)
           c6_wit_d.grid_data (paste_targets [["#111111"]] 0 0))) :=
  c6_paste_clipped c6_wit_d [["#111111"]] 0 0 (by decide) (by decide)
    (by decide) (by decide)

/-! ## Claim C9 -/

theorem row_cells_cells (cs : List Color) :
    row_cells (LoadedRow.cells cs) = cs := rfl

theorem apply_marks_grid_data (d : Designer) (mt : Option LoadedMarks) :
    (apply_marks d mt).grid_data = d.grid_data := by
  unfold apply_marks
  cases mt with
  | none => rfl
  | some m => cases m <;> rfl

/-- Unfolding `copyRowsFrom` at an ill-typed row. -/
theorem copyRowsFrom_cons_bad {lg : List LoadedRow} {n : Nat} {g : Grid}
    {r : Nat} {rest : List Nat}
    (h : lg.getD r LoadedRow.bad = LoadedRow.bad) :
    copyRowsFrom lg n g (r :: rest) = (g, false) := by
  simp only [copyRowsFrom]
  rw [h]

/-- Unfolding `copyRowsFrom` at a well-typed row. -/
theorem copyRowsFrom_cons_cells {lg : List LoadedRow} {n : Nat} {g : Grid}
    {r : Nat} {rest : List Nat} {cs : List Color}
    (h : lg.getD r LoadedRow.bad = LoadedRow.cells cs) :
    copyRowsFrom lg n g (r :: rest) =
      copyRowsFrom lg n ((List.range (min cs.length n)).foldl
        (fun g c => gridSet g r c (cs.getD c "")) g) rest := by
  simp only [copyRowsFrom]
  rw [h]

/-- The grid and (on a mid-copy failure) the marks produced by loading a
parsed document with grid data. -/
theorem load_project_proj (d : Designer) {proj : ProjectFile}
    {lg : List LoadedRow} (hpg : proj.grid_data = some lg) :
    (load_project d (some proj)).grid_data =
      (copyRowsFrom lg d.grid_size d.grid_data
        (List.range (min lg.length d.grid_size))).1 ∧
    ((copyRowsFrom lg d.grid_size d.grid_data
        (List.range (min lg.length d.grid_size))).2 = false →
      (load_project d (some proj)).marked_tiles = d.marked_tiles) := by
  unfold load_project
  dsimp only
  rw [hpg]
  dsimp only
  constructor
  · split
    · rw [apply_marks_grid_data]
    · rfl
  · intro hfail
    rw [if_neg (by simp [hfail])]

/-- Shape is preserved by the per-row cell loop. -/
theorem shape_copyRow {r : Nat} {cs : List Color} (ks : List Nat) :
    ∀ {g : Grid} {n : Nat}, gridShape g n →
      gridShape (ks.foldl (fun g c => gridSet g r c (cs.getD c "")) g) n := by
  induction ks with
  | nil => intro g n h; exact h
  | cons k rest ih =>
    intro g n h
    show gridShape (rest.foldl _ (gridSet g r k (cs.getD k ""))) n
    exact ih (shape_gridSet h _ _ _)

/-- Pointwise effect of the per-row cell loop. -/
theorem copyRow_get (r : Nat) (cs : List Color) (n : Nat) (g : Grid)
    (hsh : gridShape g n) (hr : r < n) (r' c' : Nat) :
    gridGet ((List.range (min cs.length n)).foldl
        (fun g c => gridSet g r c (cs.getD c "")) g) r' c' =
      (if r' = r ∧ c' < min cs.length n then cs.getD c' ""
       else gridGet g r' c') := by
  have hfold : (List.range (min cs.length n)).foldl
      (fun g c => gridSet g r c (cs.getD c "")) g =
      ((List.range (min cs.length n)).map (fun c => ((r, c) : Cell))).foldl
        (fun g rc => gridSet g rc.1 rc.2 (cs.getD rc.2 "")) g := by
    rw [List.foldl_map]
  have hnd : ((List.range (min cs.length n)).map
      (fun c => ((r, c) : Cell))).Nodup := by
    refine List.Nodup.map ?_ (List.nodup_range _)
    intro x y hxy
    exact congrArg Prod.snd hxy
  have hin : ∀ rc ∈ (List.range (min cs.length n)).map
      (fun c => ((r, c) : Cell)), rc.1 < n ∧ rc.2 < n := by
    intro rc hrc
    obtain ⟨c, hc, rfl⟩ := List.mem_map.mp hrc
    rw [List.mem_range] at hc
    exact ⟨hr, by omega⟩
  have h : gridGet (((List.range (min cs.length n)).map
      (fun c => ((r, c) : Cell))).foldl
        (fun g rc => gridSet g rc.1 rc.2 (cs.getD rc.2 "")) g) r' c' =
      if ((r', c') : Cell) ∈ (List.range (min cs.length n)).map
          (fun c => ((r, c) : Cell))
      then cs.getD c' "" else gridGet g r' c' :=
    foldl_writeAll (fun rc => cs.getD rc.2 "") n _ g hsh hin hnd r' c'
  rw [hfold, h]
  have hmem : (((r', c') : Cell) ∈ (List.range (min cs.length n)).map
      (fun c => ((r, c) : Cell))) ↔ (r' = r ∧ c' < min cs.length n) := by
    simp only [List.mem_map, List.mem_range, Prod.mk.injEq]
    constructor
    · rintro ⟨c, hc, h1, h2⟩
      exact ⟨h1.symm, by omega⟩
    · rintro ⟨rfl, hc⟩
      exact ⟨c', hc, rfl, rfl⟩
  by_cases hm : r' = r ∧ c' < min cs.length n
  · rw [if_pos (hmem.mpr hm), if_pos hm]
  · rw [if_neg (fun hmm => hm (hmem.mp hmm)), if_neg hm]

/-- A sweep over well-typed row indices succeeds and copies exactly those
rows' cells (clipped to the grid size). -/
theorem copyRowsFrom_spec_good (lg : List LoadedRow) (n : Nat) :
    ∀ (idxs : List Nat) (g : Grid), gridShape g n → idxs.Nodup →
      (∀ r ∈ idxs, r < n) →
      (∀ r ∈ idxs, lg.getD r LoadedRow.bad ≠ LoadedRow.bad) →
      (copyRowsFrom lg n g idxs).2 = true ∧
      gridShape (copyRowsFrom lg n g idxs).1 n ∧
      (∀ r c, gridGet (copyRowsFrom lg n g idxs).1 r c =
        if r ∈ idxs ∧
            c < min (row_cells (lg.getD r LoadedRow.bad)).length n
        then (row_cells (lg.getD r LoadedRow.bad)).getD c ""
        else gridGet g r c) := by
  intro idxs
  induction idxs with
  | nil =>
    intro g hsh _ _ _
    refine ⟨rfl, hsh, ?_⟩
    intro r c
    simp [copyRowsFrom]
  | cons r0 rest ih =>
    intro g hsh hnd hin hgood
    have hr0n : r0 < n := hin r0 (List.mem_cons_self _ _)
    have hr0 : lg.getD r0 LoadedRow.bad ≠ LoadedRow.bad :=
      hgood r0 (List.mem_cons_self _ _)
    have hr0_not : r0 ∉ rest := (List.nodup_cons.mp hnd).1
    cases hrow : lg.getD r0 LoadedRow.bad with
    | bad => exact absurd hrow hr0
    | cells cs =>
      rw [copyRowsFrom_cons_cells hrow]
      obtain ⟨ih1, ih2, ih3⟩ := ih ((List.range (min cs.length n)).foldl
          (fun g c => gridSet g r0 c (cs.getD c "")) g)
        (shape_copyRow _ hsh) (List.Nodup.of_cons hnd)
        (fun r h => hin r (List.mem_cons_of_mem _ h))
        (fun r h => hgood r (List.mem_cons_of_mem _ h))
      refine ⟨ih1, ih2, ?_⟩
      intro r c
      rw [ih3 r c]
      have hget := copyRow_get r0 cs n g hsh hr0n r c
      by_cases hr : r = r0
      · subst hr
        simp only [hrow, row_cells_cells]
        rw [if_neg (fun h => hr0_not h.1), hget]
        by_cases hc : c < min cs.length n
        · rw [if_pos ⟨rfl, hc⟩, if_pos ⟨List.mem_cons_self _ _, hc⟩]
        · rw [if_neg (fun h => hc h.2), if_neg (fun h => hc h.2)]
      · have hg1 : gridGet ((List.range (min cs.length n)).foldl
            (fun g c => gridSet g r0 c (cs.getD c "")) g) r c =
            gridGet g r c := by
          rw [hget, if_neg (fun h => hr h.1)]
        by_cases hm : r ∈ rest ∧
            c < min (row_cells (lg.getD r LoadedRow.bad)).length n
        · rw [if_pos hm, if_pos ⟨List.mem_cons_of_mem _ hm.1, hm.2⟩]
        · rw [if_neg hm, hg1, if_neg (fun h =>
            hm ⟨(List.mem_cons.mp h.1).resolve_left hr, h.2⟩)]

/-- A sweep that reaches an ill-typed row stops there: the good prefix is
applied, the failure is reported, and the remaining indices are ignored. -/
theorem copyRowsFrom_bad_split (lg : List LoadedRow) (n r0 : Nat)
    (hbad : lg.getD r0 LoadedRow.bad = LoadedRow.bad) (idxs2 : List Nat) :
    ∀ (idxs1 : List Nat) (g : Grid),
      (∀ r ∈ idxs1, lg.getD r LoadedRow.bad ≠ LoadedRow.bad) →
      copyRowsFrom lg n g (idxs1 ++ r0 :: idxs2) =
        ((copyRowsFrom lg n g idxs1).1, false) := by
  intro idxs1
  induction idxs1 with
  | nil =>
    intro g _
    rw [List.nil_append, copyRowsFrom_cons_bad hbad]
    rfl
  | cons r1 rest ih =>
    intro g hgood
    have hr1 : lg.getD r1 LoadedRow.bad ≠ LoadedRow.bad :=
      hgood r1 (List.mem_cons_self _ _)
    cases hrow : lg.getD r1 LoadedRow.bad with
    | bad => exact absurd hrow hr1
    | cells cs =>
      rw [List.cons_append, copyRowsFrom_cons_cells hrow,
        copyRowsFrom_cons_cells hrow]
      exact ih _ (fun r h => hgood r (List.mem_cons_of_mem _ h))

/-- A `List.range` splits at any interior point. -/
theorem range_split (k : Nat) :
    ∀ (m : Nat), k < m → ∃ tail, List.range m = List.range k ++ k :: tail := by
  intro m
  induction m with
  | zero => intro h; exact absurd h (Nat.not_lt_zero k)
  | succ m ih =>
    intro h
    by_cases hk : k < m
    · obtain ⟨tail, htail⟩ := ih hk
      refine ⟨tail ++ [m], ?_⟩
      rw [List.range_succ, htail]
      simp
    · have hkm : k = m := by omega
      subst hkm
      exact ⟨[], by rw [List.range_succ]⟩

/-- Reading a well-typed prefix row of a split grid-data list. -/
theorem getD_append_cells {good : List (List Color)} {l2 : List LoadedRow}
    {r : Nat} (h : r < good.length) :
    (good.map LoadedRow.cells ++ l2).getD r LoadedRow.bad =
      LoadedRow.cells (good.getD r []) := by
  rw [List.getD_eq_getElem?_getD, List.getD_eq_getElem?_getD,
    List.getElem?_append_left (by simpa using h), List.getElem?_map,
    List.getElem?_eq_getElem h]
  rfl

/-- Reading the ill-typed row right after the well-typed prefix. -/
theorem getD_append_bad {good : List (List Color)} {l2 : List LoadedRow} :
    (good.map LoadedRow.cells ++ LoadedRow.bad :: l2).getD good.length
      LoadedRow.bad = LoadedRow.bad := by
  rw [List.getD_eq_getElem?_getD, List.getElem?_append_right (by simp)]
  simp

/-- An in-range `getD` is a member. -/
theorem getD_mem_of_lt {l : List LoadedRow} {r : Nat} (h : r < l.length) :
    l.getD r LoadedRow.bad ∈ l := by
  rw [List.getD_eq_getElem?_getD, List.getElem?_eq_getElem h]
  exact List.getElem_mem h

/-- C9 counterexample: the parsed but malformed document
`{"grid_data": [["#111111"], 5]}` does not leave the default grid in place:
the copy loop writes cell `(0,0)` before `len(5)` raises `TypeError`, and
the swallowed exception leaves a partially modified grid behind — the claim
says a malformed project file leaves the default grid in place. -/
theorem c9_load_project_counterexample :
    c9_cex_proj.grid_data =
      some [LoadedRow.cells ["#111111"], LoadedRow.bad] ∧
    gridGet (load_project c9_wit_d (some c9_cex_proj)).grid_data 0 0 =
      "#111111" ∧
    gridGet c9_wit_d.grid_data 0 0 = default_color ∧
    ("#111111" : Color) ≠ default_color := by
  decide

/-- C9 (amended): a missing or unparseable project file leaves the grid and
marks unchanged (the error is swallowed, nothing surfaces); when the file
parses and every entry of its grid data is a list, cells are copied
cell-by-cell up to the minimum of the stored and current dimensions and
every other cell keeps its value (mismatched sizes are tolerated, not
rejected); a parsed document with an ill-typed grid row is instead applied
partially: the rows before the first such row are copied, and the swallowed
exception leaves every other cell — and the marks — unchanged, still with
no error surfaced. -/
theorem c9_load_project (d : Designer)
    (hsh : gridShape d.grid_data d.grid_size) :
    (load_project d none = d) ∧
    (∀ proj lg, proj.grid_data = some lg →
      (∀ row ∈ lg, row ≠ LoadedRow.bad) →
      (∀ r c, r < min lg.length d.grid_size →
        c < min (row_cells (lg.getD r LoadedRow.bad)).length d.grid_size →
        gridGet (load_project d (some proj)).grid_data r c =
          (row_cells (lg.getD r LoadedRow.bad)).getD c "") ∧
      (∀ r c, (r ≥ min lg.length d.grid_size ∨
          c ≥ min (row_cells (lg.getD r LoadedRow.bad)).length d.grid_size) →
        gridGet (load_project d (some proj)).grid_data r c =
          gridGet d.grid_data r c)) ∧
    (∀ proj (good : List (List Color)) (rest : List LoadedRow),
      proj.grid_data =
        some (good.map LoadedRow.cells ++ LoadedRow.bad :: rest) →
      good.length < d.grid_size →
      (∀ r c, r < good.length →
        c < min (good.getD r []).length d.grid_size →
        gridGet (load_project d (some proj)).grid_data r c =
          (good.getD r []).getD c "") ∧
      (∀ r c, (r ≥ good.length ∨
          c ≥ min (good.getD r []).length d.grid_size) →
        gridGet (load_project d (some proj)).grid_data r c =
          gridGet d.grid_data r c) ∧
      (load_project d (some proj)).marked_tiles = d.marked_tiles) := by
  refine ⟨rfl, ?_, ?_⟩
  · intro proj lg hpg hgoodrows
    have hproj := load_project_proj d hpg
    obtain ⟨_, _, hget⟩ := copyRowsFrom_spec_good lg d.grid_size
      (List.range (min lg.length d.grid_size)) d.grid_data hsh
      (List.nodup_range _)
      (fun r hr => by rw [List.mem_range] at hr; omega)
      (fun r hr => by
        rw [List.mem_range] at hr
        have hlt : r < lg.length := by omega
        intro hbad
        have hmem := getD_mem_of_lt hlt
        rw [hbad] at hmem
        exact hgoodrows _ hmem rfl)
    constructor
    · intro r c hr hc
      rw [hproj.1, hget r c, if_pos ⟨List.mem_range.mpr hr, hc⟩]
    · intro r c hout
      rw [hproj.1, hget r c, if_neg ?_]
      rintro ⟨h1, h2⟩
      rw [List.mem_range] at h1
      omega
  · intro proj good rest hpg hglen
    have hproj := load_project_proj d hpg
    have hglt : good.length <
        min (good.map LoadedRow.cells ++ LoadedRow.bad :: rest).length
          d.grid_size := by
      simp only [List.length_append, List.length_map, List.length_cons]
      omega
    obtain ⟨tail, htail⟩ := range_split good.length _ hglt
    have hgoodpre : ∀ r ∈ List.range good.length,
        (good.map LoadedRow.cells ++ LoadedRow.bad :: rest).getD r
          LoadedRow.bad ≠ LoadedRow.bad := by
      intro r hr
      rw [List.mem_range] at hr
      rw [getD_append_cells hr]
      intro h
      cases h
    have hsplit : copyRowsFrom
        (good.map LoadedRow.cells ++ LoadedRow.bad :: rest) d.grid_size
        d.grid_data
        (List.range (min (good.map LoadedRow.cells ++
          LoadedRow.bad :: rest).length d.grid_size)) =
        ((copyRowsFrom (good.map LoadedRow.cells ++ LoadedRow.bad :: rest)
          d.grid_size d.grid_data (List.range good.length)).1, false) := by
      rw [htail]
      exact copyRowsFrom_bad_split _ _ _ getD_append_bad tail _ _ hgoodpre
    obtain ⟨_, _, hget⟩ := copyRowsFrom_spec_good
      (good.map LoadedRow.cells ++ LoadedRow.bad :: rest) d.grid_size
      (List.range good.length) d.grid_data hsh (List.nodup_range _)
      (fun r hr => by rw [List.mem_range] at hr; omega)
      hgoodpre
    refine ⟨?_, ?_, ?_⟩
    · intro r c hr hc
      have hcond : r ∈ List.range good.length ∧
          c < min (row_cells ((good.map LoadedRow.cells ++
            LoadedRow.bad :: rest).getD r LoadedRow.bad)).length
            d.grid_size := by
        refine ⟨List.mem_range.mpr hr, ?_⟩
        rw [getD_append_cells hr, row_cells_cells]
        exact hc
      rw [hproj.1, hsplit]
      show gridGet (copyRowsFrom (good.map LoadedRow.cells ++
        LoadedRow.bad :: rest) d.grid_size d.grid_data
        (List.range good.length)).1 r c = (good.getD r []).getD c ""
      rw [hget r c, if_pos hcond, getD_append_cells hr, row_cells_cells]
    · intro r c hout
      rw [hproj.1, hsplit]
      show gridGet (copyRowsFrom (good.map LoadedRow.cells ++
        LoadedRow.bad :: rest) d.grid_size d.grid_data
        (List.range good.length)).1 r c = gridGet d.grid_data r c
      rw [hget r c, if_neg ?_]
      rintro ⟨h1, h2⟩
      rw [List.mem_range] at h1
      rcases hout with hout | hout
      · omega
      · rw [getD_append_cells h1, row_cells_cells] at h2
        omega
    · refine hproj.2 ?_
      rw [hsplit]

/-- C9 witness: the amended theorem applied to a fresh 2×2 designer. -/
theorem c9_load_project_witness :
    (load_project c9_wit_d none = c9_wit_d) ∧
    (∀ proj lg, proj.grid_data = some lg →
      (∀ row ∈ lg, row ≠ LoadedRow.bad) →
      (∀ r c, r < min lg.length c9_wit_d.grid_size →
        c < min (row_cells (lg.getD r LoadedRow.bad)).length
          c9_wit_d.grid_size →
        gridGet (load_project c9_wit_d (some proj)).grid_data r c =
          (row_cells (lg.getD r LoadedRow.bad)).getD c "") ∧
      (∀ r c, (r ≥ min lg.length c9_wit_d.grid_size ∨
          c ≥ min (row_cells (lg.getD r LoadedRow.bad)).length
            c9_wit_d.grid_size) →
        gridGet (load_project c9_wit_d (some proj)).grid_data r c =
          gridGet c9_wit_d.grid_data r c)) ∧
    (∀ proj (good : List (List Color)) (rest : List LoadedRow),
      proj.grid_data =
        some (good.map LoadedRow.cells ++ LoadedRow.bad :: rest) →
      good.length < c9_wit_d.grid_size →
      (∀ r c, r < good.length →
        c < min (good.getD r []).length c9_wit_d.grid_size →
        gridGet (load_project c9_wit_d (some proj)).grid_data r c =
          (good.getD r []).getD c "") ∧
      (∀ r c, (r ≥ good.length ∨
          c ≥ min (good.getD r []).length c9_wit_d.grid_size) →
        gridGet (load_project c9_wit_d (some proj)).grid_data r c =
          gridGet c9_wit_d.grid_data r c) ∧
      (load_project c9_wit_d (some proj)).marked_tiles =
        c9_wit_d.marked_tiles) :=
  c9_load_project c9_wit_d (by decide)

/-! ## Claim C7 -/

/-- Adding drag: with `mark_adding` set, every drag step only inserts. -/
theorem drag_marks_add (moves : List Cell) :
    ∀ (d : Designer), d.mark_mode = true → d.mark_adding = true →
      d.is_dragging = true →
      (moves.foldl on_canvas_drag d).marked_tiles =
        d.marked_tiles ∪ moves.toFinset := by
  induction moves with
  | nil => intro d _ _ _; simp
  | cons p rest ih =>
    intro d hm ha hd
    show (rest.foldl on_canvas_drag (on_canvas_drag d p)).marked_tiles = _
    by_cases hp : p ∈ d.marked_tiles
    · have hstep : on_canvas_drag d p = d := by
        simp [on_canvas_drag, hd, hm, ha, hp]
      rw [hstep, ih d hm ha hd]
      ext x
      simp only [Finset.mem_union, List.toFinset_cons, Finset.mem_insert,
        List.mem_toFinset]
      constructor
      · rintro (h | h)
        · exact Or.inl h
        · exact Or.inr (Or.inr h)
      · rintro (h | rfl | h)
        · exact Or.inl h
        · exact Or.inl hp
        · exact Or.inr h
    · have hstep : on_canvas_drag d p =
          { d with marked_tiles := insert p d.marked_tiles } := by
        simp [on_canvas_drag, hd, hm, ha, toggle_mark, hp]
      rw [hstep, ih { d with marked_tiles := insert p d.marked_tiles } hm ha hd]
      dsimp only
      ext x
      simp only [Finset.mem_union, Finset.mem_insert, List.toFinset_cons,
        List.mem_toFinset]
      tauto

/-- Removing drag: with `mark_adding` cleared, every drag step only erases. -/
theorem drag_marks_remove (moves : List Cell) :
    ∀ (d : Designer), d.mark_mode = true → d.mark_adding = false →
      d.is_dragging = true →
      (moves.foldl on_canvas_drag d).marked_tiles =
        d.marked_tiles \ moves.toFinset := by
  induction moves with
  | nil => intro d _ _ _; simp
  | cons p rest ih =>
    intro d hm ha hd
    show (rest.foldl on_canvas_drag (on_canvas_drag d p)).marked_tiles = _
    by_cases hp : p ∈ d.marked_tiles
    · have hstep : on_canvas_drag d p =
          { d with marked_tiles := d.marked_tiles.erase p } := by
        simp [on_canvas_drag, hd, hm, ha, toggle_mark, hp]
      rw [hstep, ih { d with marked_tiles := d.marked_tiles.erase p } hm ha hd]
      dsimp only
      ext x
      simp only [Finset.mem_sdiff, Finset.mem_erase, List.toFinset_cons,
        Finset.mem_insert, List.mem_toFinset, not_or]
      constructor
      · rintro ⟨⟨h1, h2⟩, h3⟩
        exact ⟨h2, h1, h3⟩
      · rintro ⟨h1, h2, h3⟩
        exact ⟨⟨h2, h1⟩, h3⟩
    · have hstep : on_canvas_drag d p = d := by
        simp [on_canvas_drag, hd, hm, ha, hp]
      rw [hstep, ih d hm ha hd]
      ext x
      simp only [Finset.mem_sdiff, List.toFinset_cons, Finset.mem_insert,
        List.mem_toFinset, not_or]
      constructor
      · rintro ⟨h1, h2⟩
        refine ⟨h1, ?_, h2⟩
        rintro rfl
        exact hp h1
      · rintro ⟨h1, _, h3⟩
        exact ⟨h1, h3⟩

/-- C7: in mark mode, the membership state of the first touched cell fixes
the direction of the whole drag: started on an unmarked cell the drag only
adds marks (final marks = old ∪ touched cells); started on a marked cell it
only removes (final marks = old \ touched cells); no single drag both adds
and removes. -/
theorem c7_mark_drag (d : Designer) (first : Cell) (moves : List Cell)
    (hm : d.mark_mode = true) :
    (first ∉ d.marked_tiles →
      (moves.foldl on_canvas_drag (on_canvas_click d first)).marked_tiles =
        d.marked_tiles ∪ insert first moves.toFinset) ∧
    (first ∈ d.marked_tiles →
      (moves.foldl on_canvas_drag (on_canvas_click d first)).marked_tiles =
        d.marked_tiles \ insert first moves.toFinset) := by
  constructor
  · intro hf
    have hclick : on_canvas_click d first =
        { d with
          is_dragging := true
          mark_adding := true
          marked_tiles := insert first d.marked_tiles } := by
      simp [on_canvas_click, hm, toggle_mark, hf]
    rw [hclick, drag_marks_add moves
      { d with
        is_dragging := true
        mark_adding := true
        marked_tiles := insert first d.marked_tiles } hm rfl rfl]
    dsimp only
    ext x
    simp only [Finset.mem_union, Finset.mem_insert, List.mem_toFinset]
    tauto
  · intro hf
    have hclick : on_canvas_click d first =
        { d with
          is_dragging := true
          mark_adding := false
          marked_tiles := d.marked_tiles.erase first } := by
      simp [on_canvas_click, hm, toggle_mark, hf]
    rw [hclick, drag_marks_remove moves
      { d with
        is_dragging := true
        mark_adding := false
        marked_tiles := d.marked_tiles.erase first } hm rfl rfl]
    dsimp only
    ext x
    simp only [Finset.mem_sdiff, Finset.mem_erase, Finset.mem_insert,
      List.mem_toFinset, not_or]
    constructor
    · rintro ⟨⟨h1, h2⟩, h3⟩
      exact ⟨h2, h1, h3⟩
    · rintro ⟨h1, h2, h3⟩
      exact ⟨⟨h2, h1⟩, h3⟩

/-- C7 witness: the theorem applied to a 2×2 designer in mark mode with a
drag touching `(0,0)` then `(0,1)`. -/
theorem c7_mark_drag_witness :
    (((0, 0) : Cell) ∉ c7_wit_d.marked_tiles →
      (([((0, 1) : Cell)]).foldl on_canvas_drag
          (on_canvas_click c7_wit_d (0, 0))).marked_tiles =
        c7_wit_d.marked_tiles ∪ insert ((0, 0) : Cell) [((0, 1) : Cell)].toFinset) ∧
    (((0, 0) : Cell) ∈ c7_wit_d.marked_tiles →
      (([((0, 1) : Cell)]).foldl on_canvas_drag
          (on_canvas_click c7_wit_d (0, 0))).marked_tiles =
        c7_wit_d.marked_tiles \ insert ((0, 0) : Cell) [((0, 1) : Cell)].toFinset) :=
  c7_mark_drag c7_wit_d (0, 0) [(0, 1)] (by decide)

/-! ## Claim C8 -/

/-- C8 (code bug): the hex field accepts the 6-character input `"+2abcd"`,
which is not a 6-digit hexadecimal color (its first character is a sign):
Python's `int(s, 16)` tolerates a sign, so the validation passes, every
2-character slice parses (`int("+2", 16) = 2`), and the picker color is
overwritten — instead of being ignored with the previous color retained, as
the claim requires.  A genuinely malformed input such as `"zzabcd"` is
ignored, and a valid one such as `"12abcd"` is accepted, matching the
intended behavior on well-formed input. -/
theorem c8_hex_validation_bug :
    isValidHex6 "+2abcd" = false ∧
    on_hex_change pickerInit "+2abcd" ≠ pickerInit ∧
    on_hex_change pickerInit "+2abcd" =
      { red := 2, green := 171, blue := 205 } ∧
    on_hex_change pickerInit "zzabcd" = pickerInit ∧
    isValidHex6 "12abcd" = true ∧
    on_hex_change pickerInit "12abcd" =
      { red := 18, green := 171, blue := 205 } := by
  decide

/-! ## Claim C1 -/

/-- The paint color only depends on the palette and the selected index. -/
theorem paint_color_congr {d d₀ : Designer} (h1 : d.colors = d₀.colors)
    (h2 : d.selected_color_index = d₀.selected_color_index) :
    paint_color d = paint_color d₀ := by
  unfold paint_color
  rw [h1, h2]

/-- Field-level description of `on_canvas_release`. -/
theorem on_canvas_release_proj (d : Designer) :
    (on_canvas_release d).grid_data = d.grid_data ∧
    (on_canvas_release d).current_stroke = [] ∧
    (on_canvas_release d).undo_history =
      (if d.current_stroke = [] then d.undo_history
       else push_stroke d.undo_history d.current_stroke) ∧
    (on_canvas_release d).mark_mode = d.mark_mode ∧
    (on_canvas_release d).grid_size = d.grid_size ∧
    (on_canvas_release d).marked_tiles = d.marked_tiles := by
  by_cases hcs : d.current_stroke = []
  · simp [on_canvas_release, hcs]
  · simp [on_canvas_release, hcs]

/-- One paint step preserves the drag invariant. -/
theorem DragInv_paint {d₀ d : Designer} (hI : DragInv d₀ d) {r c : Nat}
    (hr : r < d₀.grid_size) (hc : c < d₀.grid_size) :
    DragInv d₀ (paint_tile d r c true) := by
  have hcol : paint_color d = paint_color d₀ :=
    paint_color_congr hI.colors_eq hI.index_eq
  by_cases hold : gridGet d.grid_data r c = paint_color d
  · have hid : paint_tile d r c true = d := by
      simp [paint_tile, hold]
    rw [hid]
    exact hI
  · have hcell_ne : ∀ e ∈ d.current_stroke, (e.1, e.2.1) ≠ ((r, c) : Cell) := by
      intro e he hcell
      have h1 := hI.holds e he
      have h2 : e.1 = r := congrArg Prod.fst hcell
      have h3 : e.2.1 = c := congrArg Prod.snd hcell
      rw [h2, h3] at h1
      exact hold (h1.trans hcol.symm)
    have hget0 : gridGet d.grid_data r c = gridGet d₀.grid_data r c := by
      rw [← hI.restore, gridGet_applyStroke_ne hcell_ne]
    have hpt : paint_tile d r c true =
        { d with
          current_stroke :=
            d.current_stroke ++ [(r, c, gridGet d.grid_data r c)]
          grid_data := gridSet d.grid_data r c (paint_color d) } := by
      simp [paint_tile, hold]
    rw [hpt]
    refine ⟨hI.mark, hI.drag, hI.colors_eq, hI.index_eq, hI.size,
      shape_gridSet hI.shape _ _ _, ?_, ?_, hI.hist, hI.marks⟩
    · show applyStroke (gridSet d.grid_data r c (paint_color d))
        (d.current_stroke ++ [(r, c, gridGet d.grid_data r c)]) = d₀.grid_data
      rw [applyStroke_append, applyStroke_gridSet_comm hcell_ne, hI.restore]
      show gridSet (gridSet d₀.grid_data r c (paint_color d)) r c
        (gridGet d.grid_data r c) = d₀.grid_data
      rw [gridSet_gridSet_self, hget0, gridSet_gridGet_self]
    · intro e he
      rcases List.mem_append.mp he with he' | he'
      · show gridGet (gridSet d.grid_data r c (paint_color d)) e.1 e.2.1 =
          paint_color d₀
        rw [gridGet_gridSet_ne (Ne.symm (hcell_ne e he'))]
        exact hI.holds e he'
      · simp only [List.mem_singleton] at he'
        subst he'
        show gridGet (gridSet d.grid_data r c (paint_color d)) r c =
          paint_color d₀
        rw [gridGet_gridSet_self (by rw [hI.shape.1]; exact hr)
          (by rw [shape_row_length hI.shape hr]; exact hc)]
        exact hcol

/-- One drag event in paint mode preserves the drag invariant. -/
theorem DragInv_drag {d₀ d : Designer} (hI : DragInv d₀ d) {p : Cell}
    (hr : p.1 < d₀.grid_size) (hc : p.2 < d₀.grid_size) :
    DragInv d₀ (on_canvas_drag d p) := by
  have hstep : on_canvas_drag d p = paint_tile d p.1 p.2 true := by
    simp [on_canvas_drag, hI.drag, hI.mark]
  rw [hstep]
  exact DragInv_paint hI hr hc

/-- A whole drag preserves the invariant. -/
theorem DragInv_foldl (moves : List Cell) :
    ∀ {d₀ d : Designer}, DragInv d₀ d →
      (∀ p ∈ moves, p.1 < d₀.grid_size ∧ p.2 < d₀.grid_size) →
      DragInv d₀ (moves.foldl on_canvas_drag d) := by
  induction moves with
  | nil => intro d₀ d hI _; exact hI
  | cons p rest ih =>
    intro d₀ d hI hin
    show DragInv d₀ (rest.foldl on_canvas_drag (on_canvas_drag d p))
    exact ih (DragInv_drag hI (hin p (List.mem_cons_self _ _)).1
        (hin p (List.mem_cons_self _ _)).2)
      (fun q hq => hin q (List.mem_cons_of_mem _ hq))

/-- Pointer-down in paint mode establishes the invariant. -/
theorem DragInv_click {d₀ : Designer} (hm : d₀.mark_mode = false)
    (hsh : gridShape d₀.grid_data d₀.grid_size) {first : Cell}
    (hr : first.1 < d₀.grid_size) (hc : first.2 < d₀.grid_size) :
    DragInv d₀ (on_canvas_click d₀ first) := by
  have hstep : on_canvas_click d₀ first =
      paint_tile { d₀ with is_dragging := true, current_stroke := [] }
        first.1 first.2 true := by
    simp [on_canvas_click, hm]
  rw [hstep]
  refine DragInv_paint ?_ hr hc
  exact {
    mark := hm
    drag := rfl
    colors_eq := rfl
    index_eq := rfl
    size := rfl
    shape := hsh
    restore := rfl
    holds := by intro e he; exact absurd he (List.not_mem_nil _)
    hist := rfl
    marks := rfl }

/-- One full stroke (pointer down, drags, release): the recorded stroke
replays to the pointer-down grid, the undo log gains it exactly when it is
non-empty, and the painting-unrelated fields survive. -/
theorem runStroke_spec {d : Designer} {first : Cell} {moves : List Cell}
    (hm : d.mark_mode = false) (hsh : gridShape d.grid_data d.grid_size)
    (hf : first.1 < d.grid_size ∧ first.2 < d.grid_size)
    (hmoves : ∀ p ∈ moves, p.1 < d.grid_size ∧ p.2 < d.grid_size) :
    ∃ s, applyStroke (runStroke d first moves).grid_data s = d.grid_data ∧
      (runStroke d first moves).undo_history =
        (if s = [] then d.undo_history else push_stroke d.undo_history s) ∧
      (runStroke d first moves).current_stroke = [] ∧
      (runStroke d first moves).mark_mode = false ∧
      (runStroke d first moves).grid_size = d.grid_size ∧
      gridShape (runStroke d first moves).grid_data d.grid_size := by
  have hMid : DragInv d (moves.foldl on_canvas_drag (on_canvas_click d first)) :=
    DragInv_foldl moves (DragInv_click hm hsh hf.1 hf.2) hmoves
  have hproj := on_canvas_release_proj
    (moves.foldl on_canvas_drag (on_canvas_click d first))
  unfold runStroke
  refine ⟨(moves.foldl on_canvas_drag (on_canvas_click d first)).current_stroke,
    ?_, ?_, hproj.2.1, ?_, ?_, ?_⟩
  · rw [hproj.1]
    exact hMid.restore
  · rw [hproj.2.2.1, hMid.hist]
  · rw [hproj.2.2.2.1]
    exact hMid.mark
  · rw [hproj.2.2.2.2.1]
    exact hMid.size
  · rw [hproj.1]
    exact hMid.shape

/-- Running a stroke sequence from a state whose (reversed) undo history
pops back to `g₀` keeps that property, as long as the log never reaches the
capacity (no eviction). -/
theorem runStrokes_inv (strokes : List (Cell × List Cell)) :
    ∀ (d : Designer) (g₀ : Grid),
      d.mark_mode = false → gridShape d.grid_data d.grid_size →
      UndoInverts g₀ d.undo_history.reverse d.grid_data →
      d.undo_history.length + strokes.length ≤ max_undo →
      (∀ st ∈ strokes, (st.1.1 < d.grid_size ∧ st.1.2 < d.grid_size) ∧
        ∀ p ∈ st.2, p.1 < d.grid_size ∧ p.2 < d.grid_size) →
      (runStrokes d strokes).mark_mode = false ∧
      (runStrokes d strokes).grid_size = d.grid_size ∧
      gridShape (runStrokes d strokes).grid_data d.grid_size ∧
      UndoInverts g₀ (runStrokes d strokes).undo_history.reverse
        (runStrokes d strokes).grid_data ∧
      (runStrokes d strokes).undo_history.length ≤
        d.undo_history.length + strokes.length := by
  induction strokes with
  | nil =>
    intro d g₀ hm hsh hui hlen hin
    exact ⟨hm, rfl, hsh, hui, Nat.le_add_right _ _⟩
  | cons st rest ih =>
    intro d g₀ hm hsh hui hlen hin
    rw [show runStrokes d (st :: rest) =
      runStrokes (runStroke d st.1 st.2) rest from rfl]
    obtain ⟨s, hs_apply, hs_hist, hs_cs, hs_mark, hs_size, hs_shape⟩ :=
      runStroke_spec hm hsh (hin st (List.mem_cons_self _ _)).1
        (hin st (List.mem_cons_self _ _)).2
    have hcap : d.undo_history.length < max_undo := by
      simp only [List.length_cons] at hlen
      omega
    have hui' : UndoInverts g₀
        (runStroke d st.1 st.2).undo_history.reverse
        (runStroke d st.1 st.2).grid_data := by
      rw [hs_hist]
      by_cases hnil : s = []
      · rw [if_pos hnil]
        have : (runStroke d st.1 st.2).grid_data = d.grid_data := by
          rw [← hs_apply, hnil]
          rfl
        rw [this]
        exact hui
      · rw [if_neg hnil, push_stroke_eq_append hcap]
        have hrev : (d.undo_history ++ [s]).reverse = s :: d.undo_history.reverse := by
          simp
        rw [hrev]
        show UndoInverts g₀ d.undo_history.reverse
          (applyStroke (runStroke d st.1 st.2).grid_data s)
        rw [hs_apply]
        exact hui
    have hlen' : (runStroke d st.1 st.2).undo_history.length ≤
        d.undo_history.length + 1 := by
      rw [hs_hist]
      by_cases hnil : s = []
      · rw [if_pos hnil]
        omega
      · rw [if_neg hnil, push_stroke_eq_append hcap]
        simp
    have hshape' : gridShape (runStroke d st.1 st.2).grid_data
        (runStroke d st.1 st.2).grid_size := by
      rw [hs_size]
      exact hs_shape
    have hin' : ∀ q ∈ rest,
        (q.1.1 < (runStroke d st.1 st.2).grid_size ∧
         q.1.2 < (runStroke d st.1 st.2).grid_size) ∧
        ∀ p ∈ q.2, p.1 < (runStroke d st.1 st.2).grid_size ∧
          p.2 < (runStroke d st.1 st.2).grid_size := by
      rw [hs_size]
      intro q hq
      exact hin q (List.mem_cons_of_mem _ hq)
    have hlen'' : (runStroke d st.1 st.2).undo_history.length + rest.length ≤
        max_undo := by
      simp only [List.length_cons] at hlen
      omega
    obtain ⟨c1, c2, c3, c4, c5⟩ := ih (runStroke d st.1 st.2) g₀ hs_mark
      hshape' hui' hlen'' hin'
    rw [hs_size] at c2 c3
    refine ⟨c1, c2, c3, c4, ?_⟩
    simp only [List.length_cons]
    omega

/-- Enough `undo()` calls replay the whole history back to `g₀`. -/
theorem undoAll_restores (g₀ : Grid) (hr : List (List StrokeEntry)) :
    ∀ (d : Designer) (k : Nat), d.undo_history.reverse = hr →
      UndoInverts g₀ hr d.grid_data → hr.length ≤ k →
      (undoAll k d).grid_data = g₀ := by
  induction hr with
  | nil =>
    intro d k hrev hui hk
    have hnil : d.undo_history = [] := by
      have h := congrArg List.reverse hrev
      simpa using h
    have hstay : ∀ m (dd : Designer), dd.undo_history = [] →
        undoAll m dd = dd := by
      intro m
      induction m with
      | zero => intro dd _; rfl
      | succ n ihm =>
        intro dd hdd
        show undoAll n (undo dd) = dd
        rw [undo_of_nil hdd]
        exact ihm dd hdd
    rw [hstay k d hnil]
    exact hui
  | cons s rest ih =>
    intro d k hrev hui hk
    have hh : d.undo_history = rest.reverse ++ [s] := by
      have h := congrArg List.reverse hrev
      simpa using h
    have hk1 : 1 ≤ k := by
      simp only [List.length_cons] at hk
      omega
    obtain ⟨k', rfl⟩ : ∃ k', k = k' + 1 := ⟨k - 1, by omega⟩
    show (undoAll k' (undo d)).grid_data = g₀
    refine ih (undo d) k' ?_ ?_ ?_
    · rw [(undo_of_concat hh).1]
      simp
    · rw [(undo_of_concat hh).2]
      exact hui
    · simp only [List.length_cons] at hk
      omega

set_option maxRecDepth 100000 in
/-- C1 counterexample: on a fresh 51×51 grid, 51 one-cell strokes (each
painting a distinct default cell with the selected color) followed by 51
`undo()` calls do not restore the grid: the 51st append evicts the first
stroke from the capacity-50 undo log, so cell `(0,0)` stays painted. -/
theorem c1_paint_undo_counterexample :
    c1_cex_end.grid_data ≠ c1_cex_start.grid_data := by
  decide

/-- C1 (amended): any sequence of at most 50 paint strokes over in-range
cells of a well-formed grid, starting in paint mode with an empty undo log,
followed by as many `undo()` calls, returns the grid exactly to its
pre-paint contents. -/
theorem c1_paint_undo (d : Designer) (strokes : List (Cell × List Cell))
    (hm : d.mark_mode = false) (hh : d.undo_history = [])
    (hsh : gridShape d.grid_data d.grid_size)
    (hlen : strokes.length ≤ max_undo)
    (hin : ∀ st ∈ strokes, (st.1.1 < d.grid_size ∧ st.1.2 < d.grid_size) ∧
      ∀ p ∈ st.2, p.1 < d.grid_size ∧ p.2 < d.grid_size) :
    (undoAll strokes.length (runStrokes d strokes)).grid_data = d.grid_data := by
  have hui0 : UndoInverts d.grid_data d.undo_history.reverse d.grid_data := by
    rw [hh]
    exact rfl
  obtain ⟨_, _, _, hui, hlen'⟩ := runStrokes_inv strokes d d.grid_data hm hsh
    hui0 (by rw [hh]; simpa using hlen) hin
  refine undoAll_restores d.grid_data
    (runStrokes d strokes).undo_history.reverse
    (runStrokes d strokes) strokes.length rfl hui ?_
  rw [hh] at hlen'
  simpa using hlen'

/-- C1 witness: one stroke painting `(0,0)` then `(0,1)` on a fresh 2×2
designer, followed by one undo. -/
theorem c1_paint_undo_witness :
    (undoAll ([(((0, 0) : Cell), [((0, 1) : Cell)])] :
        List (Cell × List Cell)).length
      (runStrokes c1_wit_d [((0, 0), [(0, 1)])])).grid_data =
      c1_wit_d.grid_data :=
  c1_paint_undo c1_wit_d [((0, 0), [(0, 1)])] (by decide) (by decide)
    (by decide) (by decide) (by decide)

/-- C10 witness: the theorem applied to a fresh 2×2 designer. -/
theorem c10_clear_grid_witness :
    (∀ r c, r < c10_wit_d.grid_size → c < c10_wit_d.grid_size →
      gridGet (clear_grid c10_wit_d).grid_data r c = default_color) ∧
    default_color = "#f5f5f5" ∧
    (clear_grid c10_wit_d).undo_history = c10_wit_d.undo_history ∧
    (clear_grid c10_wit_d).marked_tiles = c10_wit_d.marked_tiles ∧
    (clear_grid c10_wit_d).current_stroke = c10_wit_d.current_stroke :=
  c10_clear_grid c10_wit_d (by decide)

end Jacquard
